import Mathlib

/-!
Verification of the Youtube-Comments-Aggregator repository.

This file gives a shallow embedding, in Lean 4, of the parts of the
repository relevant to the specification's claims:

  * `src/yt_fetch_comments.py` — the resumable, quota-safe comment fetcher
    (`extract_video_id`, `fetch_all_comments`, and the deduplication pass in
    `main`), embedded as executable functions over an abstract remote API
    oracle, with fuel to make the pagination loops total;
  * `src/cluster_comments.py` — the compact relabeling of raw cluster labels
    in `main` (lines 70–88).

Library calls of the Python source (`urllib.parse.urlparse`, `parse_qs`,
`str.strip`, Python `dict` / `set` / `sorted`) are modelled explicitly with
their documented semantics, restricted to the behaviour the source relies on.
-/

/-! ## Deduplication pass (`yt_fetch_comments.main`, lines 240–244) -/

/-- A fetched comment row, with the fields built at every `rows.append` site
of `fetch_all_comments`. -/
structure CommentRow where
  video_id : String
  comment_id : String
  parent_id : Option String
  author : String
  like_count : Nat
  published_at : String
  updated_at : String
  text : String
deriving DecidableEq

/-- Embedding of the dedup loop of `main` (lines 241–244):
`seen` is the set of already-seen comment ids (modelled as a list, used only
through membership), and the result is the `clean` list. -/
def dedupByCommentId : List CommentRow → List String → List CommentRow
  | [], _ => []
  | r :: rest, seen =>
    if r.comment_id ∈ seen then dedupByCommentId rest seen
    else r :: dedupByCommentId rest (r.comment_id :: seen)

/-! ## Compact cluster relabeling (`cluster_comments.main`, lines 70–88) -/

/-- Python `groups[k] = v` on an insertion-ordered dict: overwrite in place if
the key is present (keeping its insertion position), else append. -/
def dictAssign (d : List (Int × List Nat)) (k : Int) (v : List Nat) :
    List (Int × List Nat) :=
  if (d.lookup k).isSome then
    d.map (fun p => if p.1 = k then (k, v) else p)
  else d ++ [(k, v)]

/-- Python `groups.setdefault(k, []).append(i)` on an insertion-ordered
dict. -/
def dictPush (d : List (Int × List Nat)) (k : Int) (i : Nat) :
    List (Int × List Nat) :=
  if (d.lookup k).isSome then
    d.map (fun p => if p.1 = k then (p.1, p.2 ++ [i]) else p)
  else d ++ [(k, [i])]

/-- The group-building loop of `cluster_comments.main` (lines 73–79): `i` is
the row index, `nid` the running `next_id` (noise rows are assigned under the
key `next_id`, which is an `int` in the same key space as the labels). -/
def buildGroups : List Int → Nat → Int → List (Int × List Nat) →
    List (Int × List Nat)
  | [], _, _, d => d
  | lab :: rest, i, nid, d =>
    if lab = -1 then buildGroups rest (i + 1) (nid + 1) (dictAssign d nid [i])
    else buildGroups rest (i + 1) nid (dictPush d lab i)

/-- Stable insertion (descending by length) used to model Python's stable
`sorted(groups.values(), key=len, reverse=True)`. -/
def insGroup (g : List Nat) : List (List Nat) → List (List Nat)
  | [] => [g]
  | h :: t => if h.length ≤ g.length then g :: h :: t else h :: insGroup g t

/-- Stable sort of the group lists by descending length (line 81). -/
def sortGroupsBySize (gs : List (List Nat)) : List (List Nat) :=
  gs.foldr insGroup []

/-- The `id_map` construction of lines 82–86: compact ids are handed out in
sorted-group order starting from `cid = 1`. -/
def assignIds : List (List Nat) → Nat → List (Nat × Nat)
  | [], _ => []
  | g :: gs, cid => g.map (fun i => (i, cid)) ++ assignIds gs (cid + 1)

/-- Embedding of the whole relabeling of `cluster_comments.main`
(lines 70–88).  The result lists, for each row index, the compact cluster id
`id_map[i]`; `none` models the `KeyError` raised by `id_map[i]` at line 88
when the index is missing. -/
def relabelClusters (labels : List Int) : List (Option Nat) :=
  let d := buildGroups labels 0 1 []
  let m := assignIds (sortGroupsBySize (d.map Prod.snd)) 1
  (List.range labels.length).map (fun i => m.lookup i)

/-! ## Video identifier parser (`extract_video_id`, lines 9–23) -/

/-- Error classes the source distinguishes by substring-matching `str(e)`:
"quotaExceeded", "processingFailure"/"invalidPageToken" (both handled
identically at line 130, merged here into `pageFault`), and anything
else. -/
inductive ApiError
  | quotaExceeded
  | pageFault
  | fatal
deriving DecidableEq

/-- Result of one remote call. -/
inductive ApiResult (α : Type)
  | ok (a : α)
  | err (e : ApiError)
deriving DecidableEq

/-- A comment snippet: `id` plus the snippet fields read at each
`rows.append` site (with the `.get` defaults already resolved). -/
structure Comment where
  id : String
  author : String
  like_count : Nat
  published_at : String
  updated_at : String
  text : String
deriving DecidableEq

/-- One item of a `commentThreads().list` page: the top-level comment, the
inline replies bundled with the page (`it["replies"]["comments"]`), and
`it["snippet"]["totalReplyCount"]`. -/
structure ThreadItem where
  top : Comment
  inlineReplies : List Comment
  totalReplyCount : Nat
deriving DecidableEq

/-- A `commentThreads().list` response. -/
structure ThreadPage where
  items : List ThreadItem
  nextPageToken : Option String
deriving DecidableEq

/-- A `comments().list` (reply) response. -/
structure ReplyPage where
  items : List Comment
  nextPageToken : Option String
deriving DecidableEq

/-- The remote API oracle.  The first argument of each field is the global
call counter at the moment of the call. -/
structure Api where
  threads : Nat → Option String → ApiResult ThreadPage
  replies : Nat → String → Option String → ApiResult ReplyPage

/-- A record of one remote call, as made by the run. -/
inductive ApiCall
  | threads (pageToken : Option String)
  | replies (parentId : String) (pageToken : Option String)
deriving DecidableEq

/-- The checkpoint record (`state` dict of lines 41–48). -/
structure TraversalState where
  video_id : String
  order : String
  page_token : Option String
  processed_top_level : List String
  current_top_id : Option String
  reply_page_token : Option String
deriving DecidableEq

/-- Static configuration of a run.  The two row limits enter only through
their Python truthiness tests `maxipline and count >= maxipline`, embedded
as the boolean guards `topHit` / `totalHit` (see `limitHit`). -/
structure FetchCfg where
  api : Api
  video_id : String
  order : String
  topHit : Nat → Bool
  totalHit : Nat → Bool
  no_replies : Bool
  save_state : Bool
  checkpoint_interval : Nat

/-- The mutable run context: the checkpoint `state`, the accumulators
`rows` / `total_rows` / `fetched_threads`, plus instrumentation — the list
of states passed to `save_state` (`persisted`), the remote calls made
(`calls`), and the global call counter (`ncalls`). -/
structure Ctx where
  state : TraversalState
  rows : List CommentRow
  total_rows : Nat
  fetched_threads : Nat
  persisted : List TraversalState
  calls : List ApiCall
  ncalls : Nat
deriving DecidableEq

/-- How a run (or one of its loops) ended: a normal `return rows`, a raised
exception, or exhausted fuel. -/
inductive Outcome
  | returned
  | raised (e : ApiError)
  | outOfFuel
deriving DecidableEq

/-- Result of one embedded block: fall through to the next block (`cont`)
or return/raise out of `fetch_all_comments` (`halt`). -/
inductive LoopRes
  | cont (c : Ctx)
  | halt (c : Ctx) (o : Outcome)
deriving DecidableEq

/-- The context carried by either constructor. -/
def LoopRes.ctx : LoopRes → Ctx
  | .cont c => c
  | .halt c _ => c

/-- The outcome a block result contributes if the run ended there
(`cont` means the run fell through and, absent later events, returns). -/
def LoopRes.oOf : LoopRes → Outcome
  | .cont _ => .returned
  | .halt _ o => o

/-- Python truthiness of an optional token (`None` and `""` are falsy). -/
def tokTruthy : Option String → Bool
  | none => false
  | some s => !(s == "")

/-- `save_state()` (lines 60–62): persist the current state when a state
path was given. -/
def saveState (cfg : FetchCfg) (c : Ctx) : Ctx :=
  if cfg.save_state then { c with persisted := c.persisted ++ [c.state] }
  else c

/-- `maybe_checkpoint()` (lines 68–71), with Python truthiness of
`checkpoint_interval`. -/
def maybeCheckpoint (cfg : FetchCfg) (c : Ctx) : Ctx :=
  if cfg.save_state && (cfg.checkpoint_interval != 0) &&
      (c.total_rows % cfg.checkpoint_interval == 0) then
    saveState cfg c
  else c

/-- Record one remote call and advance the call counter. -/
def recCall (c : Ctx) (call : ApiCall) : Ctx :=
  { c with calls := c.calls ++ [call], ncalls := c.ncalls + 1 }

/-- The row built for a top-level comment (lines 141–147). -/
def topRow (vid : String) (cmt : Comment) : CommentRow :=
  ⟨vid, cmt.id, none, cmt.author, cmt.like_count, cmt.published_at,
   cmt.updated_at, cmt.text⟩

/-- The row built for a reply (lines 88–94, 158–164, 184–190). -/
def replyRow (vid top_id : String) (r : Comment) : CommentRow :=
  ⟨vid, r.id, some top_id, r.author, r.like_count, r.published_at,
   r.updated_at, r.text⟩

/-- `list(set(xs) | {t})` of lines 107 and 202, modelled up to membership
(the Python value is a hash-ordered list; the source only ever reads it
through set membership). -/
def insertId (xs : List String) (t : String) : List String :=
  if t ∈ xs then xs else xs ++ [t]

/-- The body shared by every reply `for`-loop (append row, bump
`total_rows`, `maybe_checkpoint()`, stop when `max_total` is hit): returns
the updated context and whether the `max_total` early return fired. -/
def addReplyRows (cfg : FetchCfg) (top_id : String) :
    List Comment → Ctx → Ctx × Bool
  | [], c => (c, false)
  | r :: rest, c =>
    let c1 := maybeCheckpoint cfg
      { c with rows := c.rows ++ [replyRow cfg.video_id top_id r],
               total_rows := c.total_rows + 1 }
    if cfg.totalHit c1.total_rows then (c1, true)
    else addReplyRows cfg top_id rest c1

/-- The reply `while` loop of the resume block (lines 78–101): on
`max_total` the state is saved as-is (line 98); on a new page the token is
written to the state before the emptiness test (lines 99–101); a
quota-classified exception saves and returns (lines 102–105); any other
exception re-raises (line 106). -/
def resumeReplyLoop (cfg : FetchCfg) (top_id : String) :
    Nat → Option String → Ctx → LoopRes
  | 0, _, c => .halt c .outOfFuel
  | fuel + 1, reply_page, c =>
    match cfg.api.replies c.ncalls top_id reply_page with
    | .err .quotaExceeded =>
      .halt (saveState cfg (recCall c (.replies top_id reply_page))) .returned
    | .err .pageFault =>
      .halt (recCall c (.replies top_id reply_page)) (.raised .pageFault)
    | .err .fatal =>
      .halt (recCall c (.replies top_id reply_page)) (.raised .fatal)
    | .ok page =>
      match addReplyRows cfg top_id page.items
          (recCall c (.replies top_id reply_page)) with
      | (c1, true) => .halt (saveState cfg c1) .returned
      | (c1, false) =>
        let c2 := { c1 with state :=
          { c1.state with reply_page_token := page.nextPageToken } }
        if tokTruthy page.nextPageToken then
          resumeReplyLoop cfg top_id fuel page.nextPageToken c2
        else .cont c2

/-- The resume block (lines 74–110): if the loaded checkpoint is mid-reply
(truthy `current_top_id`) and replies are not suppressed, finish that
thread's reply pages first; on ordinary exhaustion mark the thread
processed and clear `current_top_id` / `reply_page_token` in the same
update, then save (lines 107–110). -/
def resumePhase (cfg : FetchCfg) (fuel : Nat) (c : Ctx) : LoopRes :=
  if tokTruthy c.state.current_top_id && !cfg.no_replies then
    match resumeReplyLoop cfg (c.state.current_top_id.getD "") fuel
        c.state.reply_page_token c with
    | .halt c1 o => .halt c1 o
    | .cont c1 =>
      .cont (saveState cfg { c1 with state := { c1.state with
        processed_top_level :=
          insertId c1.state.processed_top_level
            (c.state.current_top_id.getD ""),
        current_top_id := none, reply_page_token := none } })
  else .cont c

/-- The full reply pagination inside the thread loop (lines 172–201): same
shape as `resumeReplyLoop`, except that the `max_total` early return first
moves `reply_page_token` to the response's next token (line 193). -/
def innerReplyLoop (cfg : FetchCfg) (top_id : String) :
    Nat → Option String → Ctx → LoopRes
  | 0, _, c => .halt c .outOfFuel
  | fuel + 1, reply_page, c =>
    match cfg.api.replies c.ncalls top_id reply_page with
    | .err .quotaExceeded =>
      .halt (saveState cfg (recCall c (.replies top_id reply_page))) .returned
    | .err .pageFault =>
      .halt (recCall c (.replies top_id reply_page)) (.raised .pageFault)
    | .err .fatal =>
      .halt (recCall c (.replies top_id reply_page)) (.raised .fatal)
    | .ok page =>
      match addReplyRows cfg top_id page.items
          (recCall c (.replies top_id reply_page)) with
      | (c1, true) =>
        .halt (saveState cfg { c1 with state :=
          { c1.state with reply_page_token := page.nextPageToken } }) .returned
      | (c1, false) =>
        let c2 := { c1 with state :=
          { c1.state with reply_page_token := page.nextPageToken } }
        if tokTruthy page.nextPageToken then
          innerReplyLoop cfg top_id fuel page.nextPageToken c2
        else .cont c2

/-- The `for it in items` body (lines 135–203).  `next_tok` is the current
thread page's `nextPageToken`, written to the state by every early return
inside the loop (lines 150, 152, 167). -/
def processItems (cfg : FetchCfg) (rfuel : Nat) (next_tok : Option String) :
    List ThreadItem → Ctx → LoopRes
  | [], c => .cont c
  | it :: rest, c =>
    if it.top.id ∈ c.state.processed_top_level then
      processItems cfg rfuel next_tok rest c
    else
      let c1 := maybeCheckpoint cfg
        { c with rows := c.rows ++ [topRow cfg.video_id it.top],
                 total_rows := c.total_rows + 1,
                 fetched_threads := c.fetched_threads + 1 }
      if cfg.topHit c1.fetched_threads then
        .halt (saveState cfg { c1 with state :=
          { c1.state with page_token := next_tok } }) .returned
      else if cfg.totalHit c1.total_rows then
        .halt (saveState cfg { c1 with state :=
          { c1.state with page_token := next_tok } }) .returned
      else if cfg.no_replies then processItems cfg rfuel next_tok rest c1
      else
        match addReplyRows cfg it.top.id it.inlineReplies c1 with
        | (c2, true) =>
          .halt (saveState cfg { c2 with state :=
            { c2.state with page_token := next_tok } }) .returned
        | (c2, false) =>
          if it.totalReplyCount ≠ 0 then
            match innerReplyLoop cfg it.top.id rfuel none
                (saveState cfg { c2 with state := { c2.state with
                  current_top_id := some it.top.id,
                  reply_page_token := none } }) with
            | .halt c4 o => .halt c4 o
            | .cont c4 =>
              processItems cfg rfuel next_tok rest
                (saveState cfg { c4 with state := { c4.state with
                  processed_top_level :=
                    insertId c4.state.processed_top_level it.top.id,
                  current_top_id := none, reply_page_token := none } })
          else processItems cfg rfuel next_tok rest c2

/-- The outer `while True` thread-list loop (lines 115–208), with the
quota return (127–129), the single-retry page-token reset (130–131), the
re-raise of other errors (132), and the repeated-token cycle breaker
(205–208). -/
def mainLoop (cfg : FetchCfg) (rfuel : Nat) :
    Nat → Option String → List String → Ctx → Ctx × Outcome
  | 0, _, _, c => (c, .outOfFuel)
  | fuel + 1, page_token, seen, c =>
    match cfg.api.threads c.ncalls page_token with
    | .err .quotaExceeded =>
      (saveState cfg { recCall c (.threads page_token) with
        state := { c.state with page_token := page_token } }, .returned)
    | .err .pageFault =>
      if tokTruthy page_token then
        mainLoop cfg rfuel fuel none seen (recCall c (.threads page_token))
      else (recCall c (.threads page_token), .raised .pageFault)
    | .err .fatal => (recCall c (.threads page_token), .raised .fatal)
    | .ok resp =>
      match processItems cfg rfuel resp.nextPageToken resp.items
          (recCall c (.threads page_token)) with
      | .halt c1 o => (c1, o)
      | .cont c1 =>
        if !(tokTruthy resp.nextPageToken) then (c1, .returned)
        else if resp.nextPageToken.getD "" ∈ seen then
          mainLoop cfg rfuel fuel none seen c1
        else
          mainLoop cfg rfuel fuel resp.nextPageToken
            (resp.nextPageToken.getD "" :: seen) c1

/-- The observable result of a run: the returned rows, the final state, the
persisted checkpoints in write order, the remote calls in order, and the
outcome.  On a `raised` outcome the Python function returns no rows (the
exception propagates); they are still recorded here for analysis. -/
structure RunResult where
  rows : List CommentRow
  state : TraversalState
  persisted : List TraversalState
  calls : List ApiCall
  outcome : Outcome
deriving DecidableEq

/-- The starting context of a run. -/
def initCtx (st : TraversalState) : Ctx := ⟨st, [], 0, 0, [], [], 0⟩

/-- The body of `fetch_all_comments` from line 64 on, for a given initial
(possibly checkpoint-loaded) state: the resume block, then the thread-list
loop started at `state["page_token"]` (line 112) with an empty
`seen_tokens` set (line 113). -/
def fetchRun (cfg : FetchCfg) (st0 : TraversalState)
    (afuel rfuel mfuel : Nat) : RunResult :=
  match resumePhase cfg afuel (initCtx st0) with
  | .halt c o => ⟨c.rows, c.state, c.persisted, c.calls, o⟩
  | .cont c =>
    ⟨(mainLoop cfg rfuel mfuel c.state.page_token [] c).1.rows,
     (mainLoop cfg rfuel mfuel c.state.page_token [] c).1.state,
     (mainLoop cfg rfuel mfuel c.state.page_token [] c).1.persisted,
     (mainLoop cfg rfuel mfuel c.state.page_token [] c).1.calls,
     (mainLoop cfg rfuel mfuel c.state.page_token [] c).2⟩

/-- The Python guard `lim and count >= lim` for both row limits: falsy
(`None` or `0`) limits never fire. -/
def limitHit : Option Nat → Nat → Bool
  | none, _ => false
  | some k, n => decide (0 < k) && decide (k ≤ n)

/-- The state initialisation of lines 41–58: fresh defaults, overridden by
a prior checkpoint only when one was loaded (`resume` and a state path and
an existing readable file, modelled by `prior`) and its `video_id` and
`order` both match. -/
def initState (video_id order : String) (resume save_set : Bool)
    (prior : Option TraversalState) : TraversalState :=
  match prior with
  | some p =>
    if resume && save_set && (p.video_id == video_id) && (p.order == order)
    then p
    else ⟨video_id, order, none, [], none, none⟩
  | none => ⟨video_id, order, none, [], none, none⟩

/-- `fetch_all_comments` itself, over the API oracle and fuels. -/
def fetch_all_comments (api : Api) (video_id order : String)
    (max_top_level : Option Nat) (no_replies : Bool)
    (max_total : Option Nat) (save_set resume : Bool)
    (checkpoint_interval : Nat) (prior : Option TraversalState)
    (afuel rfuel mfuel : Nat) : RunResult :=
  fetchRun
    ⟨api, video_id, order, limitHit max_top_level, limitHit max_total,
     no_replies, save_set, checkpoint_interval⟩
    (initState video_id order resume save_set prior) afuel rfuel mfuel

/-! ## Derived notions used by the claims -/

/-- The checkpoint invariant of claim C2: a state never names a thread as
currently mid-reply while also recording it as fully processed. -/
def StateOk (st : TraversalState) : Prop :=
  ∀ t, st.current_top_id = some t → t ∉ st.processed_top_level

/-- The run invariant: the live state and every checkpoint written so far
satisfy `StateOk`. -/
def CtxOk (c : Ctx) : Prop :=
  StateOk c.state ∧ ∀ st ∈ c.persisted, StateOk st

/-- Number of top-level rows (`parent_id is None`) in an output. -/
def countNulls (rows : List CommentRow) : Nat :=
  (rows.filter (fun r => r.parent_id.isNone)).length

/-- An upstream serving a fixed thread list as a single page and no
replies, used to instantiate limit-respect claims. -/
def onePageThreadsApi (items : List ThreadItem) : Api :=
  ⟨fun _ _ => .ok ⟨items, none⟩, fun _ _ _ => .ok ⟨[], none⟩⟩

/-- Distinct thread-list page tokens: page 0 is reached with no token and
page `i ≥ 1` with a token of `i` copies of 'p', so no token ever repeats
(the cycle breaker of lines 205–208 never fires). -/
def pageTok : Nat → Option String
  | 0 => none
  | i + 1 => some (String.mk (List.replicate (i + 1) 'p'))

/-- Distinct reply-page tokens, analogous. -/
def rTok : Nat → Option String
  | 0 => none
  | i + 1 => some (String.mk (List.replicate (i + 1) 'r'))

/-- The page index encoded by a token of either family. -/
def tokIdx : Option String → Nat
  | none => 0
  | some s => s.length

/-- A well-behaved paginated thread-list upstream: the pages of `pages`
are served in order with distinct non-cyclic tokens and no errors, the
last page carrying no next token. -/
def pagedThreads (pages : List (List ThreadItem)) (n : Nat)
    (tok : Option String) : ApiResult ThreadPage :=
  if h : tokIdx tok < pages.length then
    .ok ⟨pages.get ⟨tokIdx tok, h⟩,
      if tokIdx tok + 1 < pages.length then pageTok (tokIdx tok + 1)
      else none⟩
  else .ok ⟨[], none⟩

/-- A well-behaved paginated reply upstream: thread `pid`'s reply pages
are `R pid`, served in order with distinct tokens and no errors. -/
def pagedReplies (R : String → List (List Comment)) (n : Nat) (pid : String)
    (tok : Option String) : ApiResult ReplyPage :=
  if h : tokIdx tok < (R pid).length then
    .ok ⟨(R pid).get ⟨tokIdx tok, h⟩,
      if tokIdx tok + 1 < (R pid).length then rTok (tokIdx tok + 1)
      else none⟩
  else .ok ⟨[], none⟩

/-- The full well-behaved paginated upstream. -/
def pagedApi (pages : List (List ThreadItem))
    (R : String → List (List Comment)) : Api :=
  ⟨pagedThreads pages, pagedReplies R⟩


/-! ## Concrete instances used by witnesses -/

/-- A concrete row for witnesses. -/
def wrow (i : String) : CommentRow := ⟨"v", i, none, "", 0, "", "", ""⟩

/-- A comment with a given id and empty metadata. -/
def wComment (i : String) : Comment := ⟨i, "", 0, "", "", ""⟩

/-- A thread item with no inline replies and no reply count. -/
def wItem (i : String) : ThreadItem := ⟨wComment i, [], 0⟩

/-- An upstream that always answers with an empty final page. -/
def emptyApi : Api := ⟨fun _ _ => .ok ⟨[], none⟩, fun _ _ _ => .ok ⟨[], none⟩⟩

/-- An upstream whose every call fails with quota exhaustion. -/
def quotaApi : Api := ⟨fun _ _ => .err .quotaExceeded, fun _ _ _ => .err .quotaExceeded⟩

/-- An upstream whose every call fails with a page-token fault. -/
def faultApi : Api := ⟨fun _ _ => .err .pageFault, fun _ _ _ => .err .pageFault⟩

/-- A configuration over a given upstream with no limits, replies enabled,
and state saving on. -/
def wCfgOf (api : Api) : FetchCfg :=
  ⟨api, "v", "time", limitHit none, limitHit none, false, true, 500⟩

/-- A fresh traversal state. -/
def wStFresh : TraversalState := ⟨"v", "time", none, [], none, none⟩

/-- A mid-reply checkpoint state naming thread "T1". -/
def wStMid : TraversalState := ⟨"v", "time", none, [], some "T1", some "tok"⟩

/-- A fresh state carrying a saved thread-list page token. -/
def wStTok : TraversalState := ⟨"v", "time", some "p1", [], none, none⟩

/-- A configuration over the empty upstream with `max_top_level = 1`. -/
def wCfgTop : FetchCfg :=
  ⟨emptyApi, "v", "time", limitHit (some 1), limitHit none, false, true, 500⟩

/-- A thread item with an inline reply and a positive reply count. -/
def wItemBig : ThreadItem := ⟨wComment "T1", [wComment "R1"], 5⟩

/-- Concrete reply pages for witnesses: every thread has one page with one
reply. -/
def wR : String → List (List Comment) := fun _ => [[wComment "R2"]]

/-! ## Theorems -/

theorem dedup_sublist (rows : List CommentRow) (seen : List String) :
    (dedupByCommentId rows seen).Sublist rows := by
  induction rows generalizing seen with
  | nil => simp [dedupByCommentId]
  | cons r rest ih =>
    simp only [dedupByCommentId]
    by_cases h : r.comment_id ∈ seen
    · rw [if_pos h]; exact List.Sublist.cons _ (ih seen)
    · rw [if_neg h]; exact List.Sublist.cons₂ _ (ih _)

theorem dedup_id_not_seen (rows : List CommentRow) (seen : List String)
    (q : CommentRow) (hq : q ∈ dedupByCommentId rows seen) :
    q.comment_id ∉ seen := by
  induction rows generalizing seen with
  | nil => simp [dedupByCommentId] at hq
  | cons r rest ih =>
    simp only [dedupByCommentId] at hq
    by_cases h : r.comment_id ∈ seen
    · rw [if_pos h] at hq; exact ih seen hq
    · rw [if_neg h] at hq
      rcases List.mem_cons.mp hq with rfl | hq2
      · exact h
      · intro hmem
        exact ih _ hq2 (List.mem_cons_of_mem _ hmem)

theorem dedup_find (rows : List CommentRow) (seen : List String)
    (q : CommentRow) (hq : q ∈ dedupByCommentId rows seen) :
    rows.find? (fun r => r.comment_id == q.comment_id) = some q := by
  induction rows generalizing seen with
  | nil => simp [dedupByCommentId] at hq
  | cons r rest ih =>
    simp only [dedupByCommentId] at hq
    by_cases h : r.comment_id ∈ seen
    · rw [if_pos h] at hq
      have hq1 := dedup_id_not_seen rest seen q hq
      have hne : (r.comment_id == q.comment_id) = false := by
        simp only [beq_eq_false_iff_ne, ne_eq]
        intro he; rw [he] at h; exact hq1 h
      rw [List.find?_cons_of_neg _ (by simp [hne])]
      exact ih seen hq
    · rw [if_neg h] at hq
      rcases List.mem_cons.mp hq with rfl | hq2
      · rw [List.find?_cons_of_pos _ (by simp)]
      · have hq1 := dedup_id_not_seen rest _ _ hq2
        have hne : (r.comment_id == q.comment_id) = false := by
          simp only [beq_eq_false_iff_ne, ne_eq]
          intro he
          exact hq1 (by rw [← he]; exact List.mem_cons_self _ _)
        rw [List.find?_cons_of_neg _ (by simp [hne])]
        exact ih _ hq2

theorem dedup_nodup (rows : List CommentRow) (seen : List String) :
    ((dedupByCommentId rows seen).map (fun r => r.comment_id)).Nodup := by
  induction rows generalizing seen with
  | nil => simp [dedupByCommentId]
  | cons r rest ih =>
    simp only [dedupByCommentId]
    by_cases h : r.comment_id ∈ seen
    · rw [if_pos h]; exact ih seen
    · rw [if_neg h]
      simp only [List.map_cons, List.nodup_cons]
      refine ⟨?_, ih _⟩
      intro hmem
      rcases List.mem_map.mp hmem with ⟨q, hq, hid⟩
      exact dedup_id_not_seen rest _ q hq (by rw [hid]; exact List.mem_cons_self _ _)

theorem dedup_cover (rows : List CommentRow) (seen : List String)
    (r : CommentRow) (hr : r ∈ rows) :
    r.comment_id ∈ seen ∨
      ∃ q ∈ dedupByCommentId rows seen, q.comment_id = r.comment_id := by
  induction rows generalizing seen with
  | nil => cases hr
  | cons a rest ih =>
    simp only [dedupByCommentId]
    rcases List.mem_cons.mp hr with rfl | hr2
    · by_cases h : r.comment_id ∈ seen
      · exact Or.inl h
      · refine Or.inr ⟨r, ?_, rfl⟩
        rw [if_neg h]; exact List.mem_cons_self _ _
    · by_cases h : a.comment_id ∈ seen
      · rw [if_pos h]
        exact ih seen hr2
      · rw [if_neg h]
        rcases ih (a.comment_id :: seen) hr2 with hmem | ⟨q, hq, hid⟩
        · rcases List.mem_cons.mp hmem with he | hs
          · exact Or.inr ⟨a, List.mem_cons_self _ _, he.symm⟩
          · exact Or.inl hs
        · exact Or.inr ⟨q, List.mem_cons_of_mem _ hq, hid⟩

/-- C1: the final dedup pass over the accumulated rows keeps, for each
`comment_id`, exactly the first row bearing it (each kept row is the
`find?`-first row with its id, every id of the input is represented),
preserves first-seen order (the output is a sublist of the input), and no
two output rows share a `comment_id`. -/
theorem dedup_keeps_first_per_comment_id (rows : List CommentRow) :
    (dedupByCommentId rows []).Sublist rows ∧
    ((dedupByCommentId rows []).map (fun r => r.comment_id)).Nodup ∧
    (∀ r ∈ rows, ∃ q ∈ dedupByCommentId rows [], q.comment_id = r.comment_id) ∧
    (∀ q ∈ dedupByCommentId rows [],
      rows.find? (fun r => r.comment_id == q.comment_id) = some q) :=
  ⟨dedup_sublist rows [], dedup_nodup rows [],
   fun r hr => (dedup_cover rows [] r hr).resolve_left (by simp),
   fun q hq => dedup_find rows [] q hq⟩

theorem dedup_keeps_first_per_comment_id_w :
    ∀ q ∈ dedupByCommentId [wrow "a", wrow "b", wrow "a"] [],
      [wrow "a", wrow "b", wrow "a"].find?
        (fun r => r.comment_id == q.comment_id) = some q :=
  (dedup_keeps_first_per_comment_id [wrow "a", wrow "b", wrow "a"]).2.2.2

/-- C8 (code bug): on the label array `[-1, 0, 0, 1, 1]` the noise row at
index 0 is merged into the cluster labelled 1 (all three share compact id
1) instead of becoming its own singleton, because noise rows are keyed by
`next_id`, which collides with the label key space; and on
`[0, 0, 1, 1, -1]` the same collision overwrites the label-1 group, so
rows 2 and 3 are absent from `id_map` (`none` marks the `KeyError` the
list comprehension at line 88 then raises). -/
theorem relabelClusters_noise_collision :
    relabelClusters [-1, 0, 0, 1, 1] =
      [some 1, some 2, some 2, some 1, some 1] ∧
    relabelClusters [0, 0, 1, 1, -1] =
      [some 1, some 1, none, none, some 2] := by
  exact ⟨by decide, by decide⟩

theorem limitHit_zero : limitHit (some 0) = limitHit none := by
  funext n
  simp [limitHit]

/-- C10: passing `0` for `max_top_level` or `max_total` disables the
corresponding limit entirely (Python truthiness makes the guard
`lim and count >= lim` unreachable), so the run is identical to one with
no limit set. -/
theorem zero_limits_disabled (api : Api) (v o : String) (nr save resume : Bool)
    (ci : Nat) (prior : Option TraversalState) (af rf mf : Nat)
    (mt mtot : Option Nat) :
    (fetch_all_comments api v o (some 0) nr mtot save resume ci prior af rf mf =
      fetch_all_comments api v o none nr mtot save resume ci prior af rf mf) ∧
    (fetch_all_comments api v o mt nr (some 0) save resume ci prior af rf mf =
      fetch_all_comments api v o mt nr none save resume ci prior af rf mf) := by
  constructor
  · unfold fetch_all_comments
    rw [limitHit_zero]
  · unfold fetch_all_comments
    rw [limitHit_zero]

theorem saveState_state (cfg : FetchCfg) (c : Ctx) :
    (saveState cfg c).state = c.state := by
  unfold saveState
  split <;> rfl

theorem saveState_rows (cfg : FetchCfg) (c : Ctx) :
    (saveState cfg c).rows = c.rows := by
  unfold saveState
  split <;> rfl

theorem saveState_calls (cfg : FetchCfg) (c : Ctx) :
    (saveState cfg c).calls = c.calls := by
  unfold saveState
  split <;> rfl

theorem maybeCheckpoint_state (cfg : FetchCfg) (c : Ctx) :
    (maybeCheckpoint cfg c).state = c.state := by
  unfold maybeCheckpoint
  split
  · exact saveState_state cfg c
  · rfl

theorem maybeCheckpoint_rows (cfg : FetchCfg) (c : Ctx) :
    (maybeCheckpoint cfg c).rows = c.rows := by
  unfold maybeCheckpoint
  split
  · exact saveState_rows cfg c
  · rfl

theorem maybeCheckpoint_calls (cfg : FetchCfg) (c : Ctx) :
    (maybeCheckpoint cfg c).calls = c.calls := by
  unfold maybeCheckpoint
  split
  · exact saveState_calls cfg c
  · rfl

theorem addReplyRows_state (cfg : FetchCfg) (t : String) :
    ∀ (items : List Comment) (c : Ctx),
      (addReplyRows cfg t items c).1.state = c.state := by
  intro items
  induction items with
  | nil => intro c; rfl
  | cons r rest ih =>
    intro c
    simp only [addReplyRows]
    split
    · exact maybeCheckpoint_state cfg _
    · rw [ih]
      exact maybeCheckpoint_state cfg _

theorem ctxOk_saveState (cfg : FetchCfg) (c : Ctx) (h : CtxOk c) :
    CtxOk (saveState cfg c) := by
  unfold saveState
  split
  · refine ⟨h.1, ?_⟩
    intro st hst
    rcases List.mem_append.mp hst with hold | hnew
    · exact h.2 st hold
    · rcases List.mem_singleton.mp hnew with rfl
      exact h.1
  · exact h

theorem ctxOk_maybeCheckpoint (cfg : FetchCfg) (c : Ctx) (h : CtxOk c) :
    CtxOk (maybeCheckpoint cfg c) := by
  unfold maybeCheckpoint
  split
  · exact ctxOk_saveState cfg c h
  · exact h

theorem ctxOk_addReplyRows (cfg : FetchCfg) (t : String) :
    ∀ (items : List Comment) (c : Ctx), CtxOk c →
      CtxOk (addReplyRows cfg t items c).1 := by
  intro items
  induction items with
  | nil => intro c h; exact h
  | cons r rest ih =>
    intro c h
    simp only [addReplyRows]
    have h1 : CtxOk (maybeCheckpoint cfg
        { c with rows := c.rows ++ [replyRow cfg.video_id t r],
                 total_rows := c.total_rows + 1 }) :=
      ctxOk_maybeCheckpoint cfg _ ⟨h.1, h.2⟩
    split
    · exact h1
    · exact ih _ h1

theorem ctxOk_recCall (c : Ctx) (call : ApiCall) (h : CtxOk c) :
    CtxOk (recCall c call) :=
  ⟨h.1, h.2⟩

theorem ctxOk_resumeReplyLoop (cfg : FetchCfg) (t : String) :
    ∀ (fuel : Nat) (p : Option String) (c : Ctx), CtxOk c →
      CtxOk (resumeReplyLoop cfg t fuel p c).ctx := by
  intro fuel
  induction fuel with
  | zero => intro p c h; exact h
  | succ n ih =>
    intro p c h
    simp only [resumeReplyLoop]
    split
    · exact ctxOk_saveState cfg _ (ctxOk_recCall c _ h)
    · exact ctxOk_recCall c _ h
    · exact ctxOk_recCall c _ h
    · rename_i page hpage
      split
      · rename_i c1 heq
        have hc1 : CtxOk c1 := by
          have h2 := ctxOk_addReplyRows cfg t page.items
            (recCall c (.replies t p)) (ctxOk_recCall c _ h)
          rw [heq] at h2
          exact h2
        exact ctxOk_saveState cfg c1 hc1
      · rename_i c1 heq
        have hc1 : CtxOk c1 := by
          have h2 := ctxOk_addReplyRows cfg t page.items
            (recCall c (.replies t p)) (ctxOk_recCall c _ h)
          rw [heq] at h2
          exact h2
        split
        · exact ih _ _ ⟨hc1.1, hc1.2⟩
        · exact ⟨hc1.1, hc1.2⟩

theorem stateOk_set_current (st : TraversalState) (tid : String)
    (h : tid ∉ st.processed_top_level) :
    StateOk { st with current_top_id := some tid, reply_page_token := none } := by
  intro t ht
  have h2 : some tid = some t := ht
  cases h2
  exact h

theorem stateOk_clear (st : TraversalState) (P : List String) :
    StateOk { st with processed_top_level := P, current_top_id := none,
                      reply_page_token := none } := by
  intro t ht
  exact Option.noConfusion ht

theorem ctxOk_resumePhase (cfg : FetchCfg) (fuel : Nat) (c : Ctx)
    (h : CtxOk c) : CtxOk (resumePhase cfg fuel c).ctx := by
  unfold resumePhase
  split
  · split
    · rename_i c1 o heq
      have h2 := ctxOk_resumeReplyLoop cfg (c.state.current_top_id.getD "")
        fuel c.state.reply_page_token c h
      rw [heq] at h2
      exact h2
    · rename_i c1 heq
      have h2 := ctxOk_resumeReplyLoop cfg (c.state.current_top_id.getD "")
        fuel c.state.reply_page_token c h
      rw [heq] at h2
      exact ctxOk_saveState cfg _ ⟨stateOk_clear _ _, h2.2⟩
  · exact h

theorem ctxOk_innerReplyLoop (cfg : FetchCfg) (t : String) :
    ∀ (fuel : Nat) (p : Option String) (c : Ctx), CtxOk c →
      CtxOk (innerReplyLoop cfg t fuel p c).ctx := by
  intro fuel
  induction fuel with
  | zero => intro p c h; exact h
  | succ n ih =>
    intro p c h
    simp only [innerReplyLoop]
    split
    · exact ctxOk_saveState cfg _ (ctxOk_recCall c _ h)
    · exact ctxOk_recCall c _ h
    · exact ctxOk_recCall c _ h
    · rename_i page hpage
      split
      · rename_i c1 heq
        have hc1 : CtxOk c1 := by
          have h2 := ctxOk_addReplyRows cfg t page.items
            (recCall c (.replies t p)) (ctxOk_recCall c _ h)
          rw [heq] at h2
          exact h2
        exact ctxOk_saveState cfg _ ⟨hc1.1, hc1.2⟩
      · rename_i c1 heq
        have hc1 : CtxOk c1 := by
          have h2 := ctxOk_addReplyRows cfg t page.items
            (recCall c (.replies t p)) (ctxOk_recCall c _ h)
          rw [heq] at h2
          exact h2
        split
        · exact ih _ _ ⟨hc1.1, hc1.2⟩
        · exact ⟨hc1.1, hc1.2⟩

theorem ctxOk_processItems (cfg : FetchCfg) (rfuel : Nat) (nt : Option String) :
    ∀ (items : List ThreadItem) (c : Ctx), CtxOk c →
      CtxOk (processItems cfg rfuel nt items c).ctx := by
  intro items
  induction items with
  | nil => intro c h; exact h
  | cons it rest ih =>
    intro c h
    simp only [processItems]
    split
    · exact ih c h
    · rename_i hmem
      have hc1 : CtxOk (maybeCheckpoint cfg
          { c with rows := c.rows ++ [topRow cfg.video_id it.top],
                   total_rows := c.total_rows + 1,
                   fetched_threads := c.fetched_threads + 1 }) :=
        ctxOk_maybeCheckpoint cfg _ ⟨h.1, h.2⟩
      split
      · exact ctxOk_saveState cfg _ ⟨hc1.1, hc1.2⟩
      · split
        · exact ctxOk_saveState cfg _ ⟨hc1.1, hc1.2⟩
        · split
          · exact ih _ hc1
          · split
            · rename_i c2 heq
              have hc2 : CtxOk c2 := by
                have h2 := ctxOk_addReplyRows cfg it.top.id it.inlineReplies
                  _ hc1
                rw [heq] at h2
                exact h2
              exact ctxOk_saveState cfg _ ⟨hc2.1, hc2.2⟩
            · rename_i c2 heq
              have hc2 : CtxOk c2 := by
                have h2 := ctxOk_addReplyRows cfg it.top.id it.inlineReplies
                  _ hc1
                rw [heq] at h2
                exact h2
              have hst2 : c2.state = c.state := by
                have e1 := addReplyRows_state cfg it.top.id it.inlineReplies
                  (maybeCheckpoint cfg
                    { c with rows := c.rows ++ [topRow cfg.video_id it.top],
                             total_rows := c.total_rows + 1,
                             fetched_threads := c.fetched_threads + 1 })
                rw [heq] at e1
                rw [e1, maybeCheckpoint_state]
              split
              · have hcur : CtxOk (saveState cfg { c2 with state :=
                    { c2.state with current_top_id := some it.top.id,
                                    reply_page_token := none } }) := by
                  refine ctxOk_saveState cfg _ ⟨?_, hc2.2⟩
                  refine stateOk_set_current c2.state it.top.id ?_
                  rw [hst2]
                  exact hmem
                split
                · rename_i c4 o heq2
                  have h4 := ctxOk_innerReplyLoop cfg it.top.id rfuel none
                    _ hcur
                  rw [heq2] at h4
                  exact h4
                · rename_i c4 heq2
                  have h4 := ctxOk_innerReplyLoop cfg it.top.id rfuel none
                    _ hcur
                  rw [heq2] at h4
                  exact ih _ (ctxOk_saveState cfg _ ⟨stateOk_clear _ _, h4.2⟩)
              · exact ih _ hc2

theorem ctxOk_mainLoop (cfg : FetchCfg) (rfuel : Nat) :
    ∀ (fuel : Nat) (p : Option String) (seen : List String) (c : Ctx),
      CtxOk c → CtxOk (mainLoop cfg rfuel fuel p seen c).1 := by
  intro fuel
  induction fuel with
  | zero => intro p seen c h; exact h
  | succ n ih =>
    intro p seen c h
    simp only [mainLoop]
    split
    · exact ctxOk_saveState cfg _ ⟨h.1, h.2⟩
    · split
      · exact ih _ _ _ (ctxOk_recCall c _ h)
      · exact ctxOk_recCall c _ h
    · exact ctxOk_recCall c _ h
    · rename_i resp hresp
      split
      · rename_i c1 o heq
        have h1 := ctxOk_processItems cfg rfuel resp.nextPageToken resp.items
          (recCall c (.threads p)) (ctxOk_recCall c _ h)
        rw [heq] at h1
        exact h1
      · rename_i c1 heq
        have h1 := ctxOk_processItems cfg rfuel resp.nextPageToken resp.items
          (recCall c (.threads p)) (ctxOk_recCall c _ h)
        rw [heq] at h1
        split
        · exact h1
        · split
          · exact ih _ _ _ h1
          · exact ih _ _ _ h1

/-- C2: invariant of every persisted checkpoint — provided the loaded
initial state does not itself name a thread as both mid-reply and
processed, no state passed to `save_state()` during the run records a
thread in `processed_top_level` while `current_top_id` still names it:
a thread id enters `processed_top_level` only in the update that also
clears `current_top_id` and `reply_page_token`. -/
theorem persisted_states_ok (cfg : FetchCfg) (st0 : TraversalState)
    (af rf mf : Nat) (h0 : StateOk st0) :
    ∀ st ∈ (fetchRun cfg st0 af rf mf).persisted, StateOk st := by
  have hc0 : CtxOk (initCtx st0) := by
    refine ⟨h0, ?_⟩
    intro st hst
    simp [initCtx] at hst
  unfold fetchRun
  split
  · rename_i c o heq
    have h1 := ctxOk_resumePhase cfg af (initCtx st0) hc0
    rw [heq] at h1
    exact h1.2
  · rename_i c heq
    have h1 := ctxOk_resumePhase cfg af (initCtx st0) hc0
    rw [heq] at h1
    exact (ctxOk_mainLoop cfg rf mf c.state.page_token [] c h1).2

theorem persisted_states_ok_w :
    decide ("T1" ∈ ((fetchRun (wCfgOf quotaApi) wStMid 5 5 5).persisted.headD
      wStFresh).processed_top_level) = false :=
  decide_eq_false
    (persisted_states_ok (wCfgOf quotaApi) wStMid 5 5 5
      (by intro t ht; simp [wStMid] at ht; simp [ht, wStMid])
      ((fetchRun (wCfgOf quotaApi) wStMid 5 5 5).persisted.headD wStFresh)
      (by decide) "T1" (by decide))

theorem saveState_persisted_on (cfg : FetchCfg) (c : Ctx)
    (h : cfg.save_state = true) :
    (saveState cfg c).persisted = c.persisted ++ [c.state] := by
  simp [saveState, h]

theorem noQuotaRaise_resumeReplyLoop (cfg : FetchCfg) (t : String) :
    ∀ (fuel : Nat) (p : Option String) (c : Ctx),
      (resumeReplyLoop cfg t fuel p c).oOf ≠ .raised .quotaExceeded := by
  intro fuel
  induction fuel with
  | zero => intro p c; simp [resumeReplyLoop, LoopRes.oOf]
  | succ n ih =>
    intro p c
    simp only [resumeReplyLoop]
    split
    · simp [LoopRes.oOf]
    · simp [LoopRes.oOf]
    · simp [LoopRes.oOf]
    · split
      · simp [LoopRes.oOf]
      · split
        · exact ih _ _
        · simp [LoopRes.oOf]

theorem noQuotaRaise_innerReplyLoop (cfg : FetchCfg) (t : String) :
    ∀ (fuel : Nat) (p : Option String) (c : Ctx),
      (innerReplyLoop cfg t fuel p c).oOf ≠ .raised .quotaExceeded := by
  intro fuel
  induction fuel with
  | zero => intro p c; simp [innerReplyLoop, LoopRes.oOf]
  | succ n ih =>
    intro p c
    simp only [innerReplyLoop]
    split
    · simp [LoopRes.oOf]
    · simp [LoopRes.oOf]
    · simp [LoopRes.oOf]
    · split
      · simp [LoopRes.oOf]
      · split
        · exact ih _ _
        · simp [LoopRes.oOf]

theorem noQuotaRaise_processItems (cfg : FetchCfg) (rfuel : Nat)
    (nt : Option String) :
    ∀ (items : List ThreadItem) (c : Ctx),
      (processItems cfg rfuel nt items c).oOf ≠ .raised .quotaExceeded := by
  intro items
  induction items with
  | nil => intro c; simp [processItems, LoopRes.oOf]
  | cons it rest ih =>
    intro c
    simp only [processItems]
    split
    · exact ih c
    · split
      · simp [LoopRes.oOf]
      · split
        · simp [LoopRes.oOf]
        · split
          · exact ih _
          · split
            · simp [LoopRes.oOf]
            · rename_i c2 heq
              split
              · split
                · rename_i c4 o heq2
                  have h4 := noQuotaRaise_innerReplyLoop cfg it.top.id rfuel
                    none (saveState cfg { c2 with state := { c2.state with
                      current_top_id := some it.top.id,
                      reply_page_token := none } })
                  rw [heq2] at h4
                  exact h4
                · exact ih _
              · exact ih _

theorem noQuotaRaise_mainLoop (cfg : FetchCfg) (rfuel : Nat) :
    ∀ (fuel : Nat) (p : Option String) (seen : List String) (c : Ctx),
      (mainLoop cfg rfuel fuel p seen c).2 ≠ .raised .quotaExceeded := by
  intro fuel
  induction fuel with
  | zero => intro p seen c; simp [mainLoop]
  | succ n ih =>
    intro p seen c
    simp only [mainLoop]
    split
    · simp
    · split
      · exact ih _ _ _
      · simp
    · simp
    · rename_i resp hresp
      split
      · rename_i c1 o heq
        have h1 := noQuotaRaise_processItems cfg rfuel resp.nextPageToken
          resp.items (recCall c (.threads p))
        rw [heq] at h1
        exact h1
      · split
        · simp
        · split
          · exact ih _ _ _
          · exact ih _ _ _

theorem noQuotaRaise_resumePhase (cfg : FetchCfg) (fuel : Nat) (c : Ctx) :
    (resumePhase cfg fuel c).oOf ≠ .raised .quotaExceeded := by
  unfold resumePhase
  split
  · split
    · rename_i c1 o heq
      have h2 := noQuotaRaise_resumeReplyLoop cfg
        (c.state.current_top_id.getD "") fuel c.state.reply_page_token c
      rw [heq] at h2
      exact h2
    · simp [LoopRes.oOf]
  · simp [LoopRes.oOf]

theorem noQuotaRaise_fetchRun (cfg : FetchCfg) (st0 : TraversalState)
    (af rf mf : Nat) :
    (fetchRun cfg st0 af rf mf).outcome ≠ .raised .quotaExceeded := by
  unfold fetchRun
  split
  · rename_i c o heq
    have h1 := noQuotaRaise_resumePhase cfg af (initCtx st0)
    rw [heq] at h1
    exact h1
  · exact noQuotaRaise_mainLoop cfg rf mf _ [] _

theorem resumeReplyLoop_quota (cfg : FetchCfg) (t : String) (fuel : Nat)
    (p : Option String) (c : Ctx)
    (h : cfg.api.replies c.ncalls t p = .err .quotaExceeded) :
    resumeReplyLoop cfg t (fuel + 1) p c =
      .halt (saveState cfg (recCall c (.replies t p))) .returned := by
  simp only [resumeReplyLoop, h]

theorem innerReplyLoop_quota (cfg : FetchCfg) (t : String) (fuel : Nat)
    (p : Option String) (c : Ctx)
    (h : cfg.api.replies c.ncalls t p = .err .quotaExceeded) :
    innerReplyLoop cfg t (fuel + 1) p c =
      .halt (saveState cfg (recCall c (.replies t p))) .returned := by
  simp only [innerReplyLoop, h]

theorem mainLoop_quota (cfg : FetchCfg) (rf fuel : Nat) (p : Option String)
    (seen : List String) (c : Ctx)
    (h : cfg.api.threads c.ncalls p = .err .quotaExceeded) :
    mainLoop cfg rf (fuel + 1) p seen c =
      (saveState cfg { recCall c (.threads p) with
        state := { c.state with page_token := p } }, .returned) := by
  simp only [mainLoop, h]

/-- C3: a quota-classified failure at any remote call makes the run persist
the current state and return normally with exactly the rows collected
before the failing call.  When the next reply call (in either reply loop)
or the next thread-list call answers quota exhaustion, the run halts with
`returned` (never by raising), the rows are unchanged by the failing call,
and the state at failure (with `page_token` repositioned at the unread
thread page in the thread-list case) is appended to the persisted
checkpoints; and no run whatsoever ends by raising the quota error. -/
theorem quota_stops_cleanly (cfg : FetchCfg) (t : String) (fuel : Nat)
    (p : Option String) (seen : List String) (c : Ctx)
    (st0 : TraversalState) (af rf mf : Nat) :
    (cfg.api.replies c.ncalls t p = .err .quotaExceeded →
      resumeReplyLoop cfg t (fuel + 1) p c =
        .halt (saveState cfg (recCall c (.replies t p))) .returned ∧
      innerReplyLoop cfg t (fuel + 1) p c =
        .halt (saveState cfg (recCall c (.replies t p))) .returned ∧
      (saveState cfg (recCall c (.replies t p))).rows = c.rows ∧
      (saveState cfg (recCall c (.replies t p))).state = c.state ∧
      (cfg.save_state = true →
        (saveState cfg (recCall c (.replies t p))).persisted =
          c.persisted ++ [c.state])) ∧
    (cfg.api.threads c.ncalls p = .err .quotaExceeded →
      mainLoop cfg rf (fuel + 1) p seen c =
        (saveState cfg { recCall c (.threads p) with
          state := { c.state with page_token := p } }, .returned) ∧
      (saveState cfg { recCall c (.threads p) with
        state := { c.state with page_token := p } }).rows = c.rows ∧
      (cfg.save_state = true →
        (saveState cfg { recCall c (.threads p) with
          state := { c.state with page_token := p } }).persisted =
          c.persisted ++ [{ c.state with page_token := p }])) ∧
    (fetchRun cfg st0 af rf mf).outcome ≠ .raised .quotaExceeded := by
  refine ⟨?_, ?_, noQuotaRaise_fetchRun cfg st0 af rf mf⟩
  · intro h
    refine ⟨resumeReplyLoop_quota cfg t fuel p c h,
      innerReplyLoop_quota cfg t fuel p c h, saveState_rows cfg _,
      saveState_state cfg _, fun hs => saveState_persisted_on cfg _ hs⟩
  · intro h
    refine ⟨mainLoop_quota cfg rf fuel p seen c h, saveState_rows cfg _,
      fun hs => saveState_persisted_on cfg _ hs⟩

theorem quota_stops_cleanly_w :
    resumeReplyLoop (wCfgOf quotaApi) "T1" 1 none (initCtx wStFresh) =
      .halt (saveState (wCfgOf quotaApi)
        (recCall (initCtx wStFresh) (.replies "T1" none))) .returned :=
  ((quota_stops_cleanly (wCfgOf quotaApi) "T1" 0 none [] (initCtx wStFresh)
    wStFresh 5 5 5).1 rfl).1

theorem recCall_ncalls (c : Ctx) (call : ApiCall) :
    (recCall c call).ncalls = c.ncalls + 1 := rfl

theorem recCall_state (c : Ctx) (call : ApiCall) :
    (recCall c call).state = c.state := rfl

/-- C4: when a thread-list call whose page token is truthy fails with a
pagination fault, the token is reset to the start of the sequence and the
fetch retried exactly once (the next remote call is the thread-list call
with no token); if that retry fails with the same fault, the error is
raised and propagates out of the run (the Python `raise` at line 132),
with no further calls, rows, or checkpoints. -/
theorem pageFault_retry_once (cfg : FetchCfg) (rf fuel : Nat)
    (p : Option String) (seen : List String) (c : Ctx)
    (st0 : TraversalState) (af : Nat)
    (ht : tokTruthy p = true)
    (h1 : cfg.api.threads c.ncalls p = .err .pageFault) :
    mainLoop cfg rf (fuel + 2) p seen c =
      mainLoop cfg rf (fuel + 1) none seen (recCall c (.threads p)) ∧
    (cfg.api.threads (c.ncalls + 1) none = .err .pageFault →
      mainLoop cfg rf (fuel + 2) p seen c =
        (recCall (recCall c (.threads p)) (.threads none),
          .raised .pageFault) ∧
      (recCall (recCall c (.threads p)) (.threads none)).calls =
        c.calls ++ [.threads p, .threads none] ∧
      (recCall (recCall c (.threads p)) (.threads none)).rows = c.rows ∧
      (recCall (recCall c (.threads p)) (.threads none)).persisted =
        c.persisted) ∧
    (tokTruthy st0.current_top_id = false → st0.page_token = p →
      c = initCtx st0 →
      cfg.api.threads 1 none = .err .pageFault →
      (fetchRun cfg st0 af rf (fuel + 2)).outcome = .raised .pageFault) := by
  refine ⟨?_, ?_, ?_⟩
  · conv =>
      lhs
      rw [show fuel + 2 = (fuel + 1) + 1 from rfl]
    simp only [mainLoop, h1, ht]
    rfl
  · intro h2
    have hstep : mainLoop cfg rf (fuel + 2) p seen c =
        mainLoop cfg rf (fuel + 1) none seen (recCall c (.threads p)) := by
      conv =>
        lhs
        rw [show fuel + 2 = (fuel + 1) + 1 from rfl]
      simp only [mainLoop, h1, ht]
      rfl
    rw [hstep]
    have h2b : cfg.api.threads (recCall c (.threads p)).ncalls none =
        .err .pageFault := by
      rw [recCall_ncalls]
      exact h2
    simp only [mainLoop, h2b, tokTruthy]
    refine ⟨rfl, ?_, rfl, rfl⟩
    simp [recCall]
  · intro hcur hpt hc h2
    have hres : resumePhase cfg af (initCtx st0) = .cont (initCtx st0) := by
      unfold resumePhase
      have : tokTruthy (initCtx st0).state.current_top_id = false := hcur
      rw [this]
      simp
    unfold fetchRun
    rw [hres]
    dsimp only
    have hml : mainLoop cfg rf (fuel + 2) (initCtx st0).state.page_token []
        (initCtx st0) =
        (recCall (recCall (initCtx st0) (.threads p)) (.threads none),
          .raised .pageFault) := by
      have hpt2 : (initCtx st0).state.page_token = p := hpt
      rw [hpt2]
      have hstep : mainLoop cfg rf (fuel + 2) p [] (initCtx st0) =
          mainLoop cfg rf (fuel + 1) none []
            (recCall (initCtx st0) (.threads p)) := by
        conv =>
          lhs
          rw [show fuel + 2 = (fuel + 1) + 1 from rfl]
        have h1b : cfg.api.threads (initCtx st0).ncalls p =
            .err .pageFault := by
          rw [← hc]
          exact h1
        simp only [mainLoop, h1b, ht]
        rfl
      rw [hstep]
      have h2b : cfg.api.threads
          (recCall (initCtx st0) (.threads p)).ncalls none =
          .err .pageFault := h2
      simp only [mainLoop, h2b, tokTruthy]
      rfl
    rw [hml]

theorem pageFault_retry_once_w :
    (fetchRun (wCfgOf faultApi) wStTok 5 5 7).outcome = .raised .pageFault :=
  (pageFault_retry_once (wCfgOf faultApi) 5 5 (some "p1") [] (initCtx wStTok)
    wStTok 5 (by decide) rfl).2.2 rfl rfl rfl rfl

theorem maybeCheckpoint_fetched (cfg : FetchCfg) (c : Ctx) :
    (maybeCheckpoint cfg c).fetched_threads = c.fetched_threads := by
  unfold maybeCheckpoint saveState
  split
  · split <;> rfl
  · rfl

theorem countNulls_append_top (rows : List CommentRow) (v : String)
    (cmt : Comment) :
    countNulls (rows ++ [topRow v cmt]) = countNulls rows + 1 := by
  simp [countNulls, topRow]

theorem countNulls_append_reply (rows : List CommentRow) (v t : String)
    (r : Comment) :
    countNulls (rows ++ [replyRow v t r]) = countNulls rows := by
  simp [countNulls, replyRow]

theorem addReplyRows_no_limit (cfg : FetchCfg) (t : String)
    (htot : cfg.totalHit = limitHit none) :
    ∀ (items : List Comment) (c : Ctx),
      (addReplyRows cfg t items c).2 = false ∧
      countNulls (addReplyRows cfg t items c).1.rows = countNulls c.rows ∧
      (addReplyRows cfg t items c).1.fetched_threads = c.fetched_threads := by
  intro items
  induction items with
  | nil => intro c; exact ⟨rfl, rfl, rfl⟩
  | cons r rest ih =>
    intro c
    simp only [addReplyRows, htot]
    have hfalse : limitHit none (maybeCheckpoint cfg
        { c with rows := c.rows ++ [replyRow cfg.video_id t r],
                 total_rows := c.total_rows + 1 }).total_rows = false := rfl
    rw [hfalse]
    simp only [Bool.false_eq_true, if_false]
    refine ⟨(ih _).1, ?_, ?_⟩
    · rw [(ih _).2.1, maybeCheckpoint_rows, countNulls_append_reply]
    · rw [(ih _).2.2, maybeCheckpoint_fetched]

theorem processItems_count (cfg : FetchCfg) (k rfuel : Nat)
    (nt : Option String)
    (htop : cfg.topHit = limitHit (some k))
    (htot : cfg.totalHit = limitHit none) :
    ∀ (items : List ThreadItem) (c : Ctx),
      (∀ it ∈ items, it.totalReplyCount = 0) →
      c.state.processed_top_level = [] →
      c.fetched_threads < k →
      countNulls (processItems cfg rfuel nt items c).ctx.rows =
        countNulls c.rows + min (k - c.fetched_threads) items.length ∧
      ∀ c1 o, processItems cfg rfuel nt items c = .halt c1 o →
        o = .returned := by
  intro items
  induction items with
  | nil =>
    intro c _ _ _
    refine ⟨by simp [processItems, LoopRes.ctx], ?_⟩
    intro c1 o h
    exact LoopRes.noConfusion h
  | cons it rest ih =>
    intro c htrc hproc hflt
    simp only [processItems]
    rw [hproc]
    rw [if_neg (List.not_mem_nil it.top.id)]
    have hc1rows : (maybeCheckpoint cfg
        { c with rows := c.rows ++ [topRow cfg.video_id it.top],
                 total_rows := c.total_rows + 1,
                 fetched_threads := c.fetched_threads + 1 }).rows =
        c.rows ++ [topRow cfg.video_id it.top] := maybeCheckpoint_rows cfg _
    have hc1f : (maybeCheckpoint cfg
        { c with rows := c.rows ++ [topRow cfg.video_id it.top],
                 total_rows := c.total_rows + 1,
                 fetched_threads := c.fetched_threads + 1 }).fetched_threads =
        c.fetched_threads + 1 := maybeCheckpoint_fetched cfg _
    have hc1st : (maybeCheckpoint cfg
        { c with rows := c.rows ++ [topRow cfg.video_id it.top],
                 total_rows := c.total_rows + 1,
                 fetched_threads := c.fetched_threads + 1 }).state =
        c.state := maybeCheckpoint_state cfg _
    rw [htop, htot, hc1f]
    by_cases hlim : k ≤ c.fetched_threads + 1
    · have hhit : limitHit (some k) (c.fetched_threads + 1) = true := by
        simp only [limitHit, Bool.and_eq_true, decide_eq_true_eq]
        omega
      rw [hhit]
      simp only [if_true]
      constructor
      · rw [LoopRes.ctx, saveState_rows]
        have : (maybeCheckpoint cfg
            { c with rows := c.rows ++ [topRow cfg.video_id it.top],
                     total_rows := c.total_rows + 1,
                     fetched_threads := c.fetched_threads + 1 }).rows =
            c.rows ++ [topRow cfg.video_id it.top] := hc1rows
        rw [this, countNulls_append_top]
        have hmin : min (k - c.fetched_threads) (rest.length + 1) = 1 := by
          omega
        rw [List.length_cons, hmin]
      · intro c1 o h
        cases h
        rfl
    · have hmiss : limitHit (some k) (c.fetched_threads + 1) = false := by
        simp only [limitHit, Bool.and_eq_true, decide_eq_true_eq]
        simp only [Bool.and_eq_false_iff, decide_eq_false_iff_not]
        omega
      rw [hmiss]
      have hnone : limitHit none (maybeCheckpoint cfg
          { c with rows := c.rows ++ [topRow cfg.video_id it.top],
                   total_rows := c.total_rows + 1,
                   fetched_threads := c.fetched_threads + 1 }).total_rows =
          false := rfl
      rw [hnone]
      simp only [Bool.false_eq_true, if_false]
      have harith : ∀ m : Nat,
          min (k - (c.fetched_threads + 1)) m + 1 =
          min (k - c.fetched_threads) (m + 1) := by
        intro m
        omega
      split
      · -- no_replies branch
        have hrec := ih (maybeCheckpoint cfg
          { c with rows := c.rows ++ [topRow cfg.video_id it.top],
                   total_rows := c.total_rows + 1,
                   fetched_threads := c.fetched_threads + 1 })
          (fun x hx => htrc x (List.mem_cons_of_mem _ hx))
          (by rw [hc1st]; exact hproc) (by omega)
        rw [hc1f, hc1rows, countNulls_append_top] at hrec
        refine ⟨?_, hrec.2⟩
        rw [hrec.1, List.length_cons]
        omega
      · -- replies enabled: inline replies, then totalReplyCount = 0
        split
        · rename_i c2 heq
          have h2 := addReplyRows_no_limit cfg it.top.id htot
            it.inlineReplies (maybeCheckpoint cfg
              { c with rows := c.rows ++ [topRow cfg.video_id it.top],
                       total_rows := c.total_rows + 1,
                       fetched_threads := c.fetched_threads + 1 })
          rw [heq] at h2
          exact absurd h2.1 (by simp)
        · rename_i c2 heq
          have h2 := addReplyRows_no_limit cfg it.top.id htot
            it.inlineReplies (maybeCheckpoint cfg
              { c with rows := c.rows ++ [topRow cfg.video_id it.top],
                       total_rows := c.total_rows + 1,
                       fetched_threads := c.fetched_threads + 1 })
          have hst2 : c2.state = c.state := by
            have e1 := addReplyRows_state cfg it.top.id it.inlineReplies
              (maybeCheckpoint cfg
                { c with rows := c.rows ++ [topRow cfg.video_id it.top],
                         total_rows := c.total_rows + 1,
                         fetched_threads := c.fetched_threads + 1 })
            rw [heq] at e1
            rw [e1, hc1st]
          rw [heq] at h2
          have hrows2 : countNulls c2.rows = countNulls c.rows + 1 := by
            have := h2.2.1
            rw [hc1rows, countNulls_append_top] at this
            exact this
          have hf2 : c2.fetched_threads = c.fetched_threads + 1 := by
            rw [h2.2.2, hc1f]
          have htrc0 : it.totalReplyCount = 0 :=
            htrc it (List.mem_cons_self _ _)
          rw [htrc0]
          simp only [ne_eq, not_true_eq_false, if_false]
          have hrec := ih c2
            (fun x hx => htrc x (List.mem_cons_of_mem _ hx))
            (by rw [hst2]; exact hproc) (by omega)
          rw [hf2, hrows2] at hrec
          refine ⟨?_, hrec.2⟩
          rw [hrec.1, List.length_cons]
          omega


theorem recCall_calls (c : Ctx) (call : ApiCall) :
    (recCall c call).calls = c.calls ++ [call] := rfl

theorem addReplyRows_calls (cfg : FetchCfg) (t : String) :
    ∀ (items : List Comment) (c : Ctx),
      (addReplyRows cfg t items c).1.calls = c.calls := by
  intro items
  induction items with
  | nil => intro c; rfl
  | cons r rest ih =>
    intro c
    simp only [addReplyRows]
    split
    · exact maybeCheckpoint_calls cfg _
    · rw [ih]
      exact maybeCheckpoint_calls cfg _

theorem mem_insertId (xs : List String) (t : String) : t ∈ insertId xs t := by
  unfold insertId
  split
  · assumption
  · exact List.mem_append_right _ (List.mem_singleton.mpr rfl)

theorem resumeReplyLoop_calls (cfg : FetchCfg) (t : String) :
    ∀ (fuel : Nat) (p : Option String) (c : Ctx),
      ∃ nc, (resumeReplyLoop cfg t fuel p c).ctx.calls = c.calls ++ nc ∧
        (∀ x ∈ nc, ∃ tok, x = ApiCall.replies t tok) ∧
        (0 < fuel → nc.head? = some (.replies t p)) := by
  intro fuel
  induction fuel with
  | zero =>
    intro p c
    refine ⟨[], by simp [resumeReplyLoop, LoopRes.ctx], by simp, ?_⟩
    intro h
    exact absurd h (by simp)
  | succ n ih =>
    intro p c
    simp only [resumeReplyLoop]
    split
    · refine ⟨[.replies t p], ?_, ?_, fun _ => rfl⟩
      · rw [LoopRes.ctx, saveState_calls, recCall_calls]
      · intro x hx
        rw [List.mem_singleton] at hx
        exact ⟨p, hx⟩
    · refine ⟨[.replies t p], by rw [LoopRes.ctx, recCall_calls], ?_,
        fun _ => rfl⟩
      intro x hx
      rw [List.mem_singleton] at hx
      exact ⟨p, hx⟩
    · refine ⟨[.replies t p], by rw [LoopRes.ctx, recCall_calls], ?_,
        fun _ => rfl⟩
      intro x hx
      rw [List.mem_singleton] at hx
      exact ⟨p, hx⟩
    · rename_i page hpage
      split
      · rename_i c1 heq
        have hcalls : c1.calls = c.calls ++ [ApiCall.replies t p] := by
          have e1 := addReplyRows_calls cfg t page.items
            (recCall c (.replies t p))
          rw [heq] at e1
          rw [e1, recCall_calls]
        refine ⟨[.replies t p], ?_, ?_, fun _ => rfl⟩
        · rw [LoopRes.ctx, saveState_calls, hcalls]
        · intro x hx
          rw [List.mem_singleton] at hx
          exact ⟨p, hx⟩
      · rename_i c1 heq
        have hcalls : c1.calls = c.calls ++ [ApiCall.replies t p] := by
          have e1 := addReplyRows_calls cfg t page.items
            (recCall c (.replies t p))
          rw [heq] at e1
          rw [e1, recCall_calls]
        split
        · rcases ih page.nextPageToken { c1 with state :=
              { c1.state with reply_page_token := page.nextPageToken } }
            with ⟨nc, hnc, hall, _⟩
          refine ⟨.replies t p :: nc, ?_, ?_, fun _ => rfl⟩
          · rw [hnc]
            show c1.calls ++ nc = _
            rw [hcalls, List.append_assoc]
            rfl
          · intro x hx
            rcases List.mem_cons.mp hx with rfl | hx2
            · exact ⟨p, rfl⟩
            · exact hall x hx2
        · refine ⟨[.replies t p], ?_, ?_, fun _ => rfl⟩
          · rw [LoopRes.ctx]
            show c1.calls = _
            rw [hcalls]
          · intro x hx
            rw [List.mem_singleton] at hx
            exact ⟨p, hx⟩

theorem innerReplyLoop_calls_mono (cfg : FetchCfg) (t : String) :
    ∀ (fuel : Nat) (p : Option String) (c : Ctx),
      ∃ nc, (innerReplyLoop cfg t fuel p c).ctx.calls = c.calls ++ nc := by
  intro fuel
  induction fuel with
  | zero => intro p c; exact ⟨[], by simp [innerReplyLoop, LoopRes.ctx]⟩
  | succ n ih =>
    intro p c
    simp only [innerReplyLoop]
    split
    · exact ⟨[.replies t p], by rw [LoopRes.ctx, saveState_calls,
        recCall_calls]⟩
    · exact ⟨[.replies t p], by rw [LoopRes.ctx, recCall_calls]⟩
    · exact ⟨[.replies t p], by rw [LoopRes.ctx, recCall_calls]⟩
    · rename_i page hpage
      split
      · rename_i c1 heq
        have hcalls : c1.calls = c.calls ++ [ApiCall.replies t p] := by
          have e1 := addReplyRows_calls cfg t page.items
            (recCall c (.replies t p))
          rw [heq] at e1
          rw [e1, recCall_calls]
        exact ⟨[.replies t p], by rw [LoopRes.ctx, saveState_calls, hcalls]⟩
      · rename_i c1 heq
        have hcalls : c1.calls = c.calls ++ [ApiCall.replies t p] := by
          have e1 := addReplyRows_calls cfg t page.items
            (recCall c (.replies t p))
          rw [heq] at e1
          rw [e1, recCall_calls]
        split
        · rcases ih page.nextPageToken { c1 with state :=
              { c1.state with reply_page_token := page.nextPageToken } }
            with ⟨nc, hnc⟩
          refine ⟨.replies t p :: nc, ?_⟩
          rw [hnc]
          show c1.calls ++ nc = _
          rw [hcalls, List.append_assoc]
          rfl
        · refine ⟨[.replies t p], ?_⟩
          rw [LoopRes.ctx]
          show c1.calls = _
          rw [hcalls]

theorem processItems_calls_mono (cfg : FetchCfg) (rfuel : Nat)
    (nt : Option String) :
    ∀ (items : List ThreadItem) (c : Ctx),
      ∃ nc, (processItems cfg rfuel nt items c).ctx.calls = c.calls ++ nc := by
  intro items
  induction items with
  | nil => intro c; exact ⟨[], by simp [processItems, LoopRes.ctx]⟩
  | cons it rest ih =>
    intro c
    simp only [processItems]
    split
    · exact ih c
    · have hc1 : (maybeCheckpoint cfg
          { c with rows := c.rows ++ [topRow cfg.video_id it.top],
                   total_rows := c.total_rows + 1,
                   fetched_threads := c.fetched_threads + 1 }).calls =
          c.calls := maybeCheckpoint_calls cfg _
      split
      · exact ⟨[], by rw [LoopRes.ctx, saveState_calls]; simp [hc1]⟩
      · split
        · exact ⟨[], by rw [LoopRes.ctx, saveState_calls]; simp [hc1]⟩
        · split
          · rcases ih _ with ⟨nc, hnc⟩
            exact ⟨nc, by rw [hnc, hc1]⟩
          · split
            · rename_i c2 heq
              have hcalls2 : c2.calls = c.calls := by
                have e1 := addReplyRows_calls cfg it.top.id it.inlineReplies
                  (maybeCheckpoint cfg
                    { c with rows := c.rows ++ [topRow cfg.video_id it.top],
                             total_rows := c.total_rows + 1,
                             fetched_threads := c.fetched_threads + 1 })
                rw [heq] at e1
                rw [e1, hc1]
              exact ⟨[], by rw [LoopRes.ctx, saveState_calls]; simp [hcalls2]⟩
            · rename_i c2 heq
              have hcalls2 : c2.calls = c.calls := by
                have e1 := addReplyRows_calls cfg it.top.id it.inlineReplies
                  (maybeCheckpoint cfg
                    { c with rows := c.rows ++ [topRow cfg.video_id it.top],
                             total_rows := c.total_rows + 1,
                             fetched_threads := c.fetched_threads + 1 })
                rw [heq] at e1
                rw [e1, hc1]
              split
              · split
                · rename_i c4 o heq2
                  rcases innerReplyLoop_calls_mono cfg it.top.id rfuel none
                      (saveState cfg { c2 with state := { c2.state with
                        current_top_id := some it.top.id,
                        reply_page_token := none } }) with ⟨nc, hnc⟩
                  rw [heq2] at hnc
                  refine ⟨nc, ?_⟩
                  rw [LoopRes.ctx] at hnc ⊢
                  rw [hnc, saveState_calls]
                  show c2.calls ++ nc = _
                  rw [hcalls2]
                · rename_i c4 heq2
                  rcases innerReplyLoop_calls_mono cfg it.top.id rfuel none
                      (saveState cfg { c2 with state := { c2.state with
                        current_top_id := some it.top.id,
                        reply_page_token := none } }) with ⟨nc, hnc⟩
                  rw [heq2] at hnc
                  rw [LoopRes.ctx] at hnc
                  rcases ih (saveState cfg { c4 with state := { c4.state with
                      processed_top_level :=
                        insertId c4.state.processed_top_level it.top.id,
                      current_top_id := none, reply_page_token := none } })
                    with ⟨nc2, hnc2⟩
                  refine ⟨nc ++ nc2, ?_⟩
                  rw [hnc2, saveState_calls]
                  show c4.calls ++ nc2 = _
                  rw [hnc, saveState_calls]
                  show c2.calls ++ nc ++ nc2 = _
                  rw [hcalls2, List.append_assoc]
              · rcases ih c2 with ⟨nc, hnc⟩
                exact ⟨nc, by rw [hnc, hcalls2]⟩

theorem mainLoop_calls_mono (cfg : FetchCfg) (rfuel : Nat) :
    ∀ (fuel : Nat) (p : Option String) (seen : List String) (c : Ctx),
      ∃ nc, (mainLoop cfg rfuel fuel p seen c).1.calls = c.calls ++ nc := by
  intro fuel
  induction fuel with
  | zero => intro p seen c; exact ⟨[], by simp [mainLoop]⟩
  | succ n ih =>
    intro p seen c
    simp only [mainLoop]
    split
    · exact ⟨[.threads p], by rw [saveState_calls]; exact recCall_calls c _⟩
    · split
      · rcases ih none seen (recCall c (.threads p)) with ⟨nc, hnc⟩
        refine ⟨.threads p :: nc, ?_⟩
        rw [hnc, recCall_calls, List.append_assoc]
        rfl
      · exact ⟨[.threads p], recCall_calls c _⟩
    · exact ⟨[.threads p], recCall_calls c _⟩
    · rename_i resp hresp
      split
      · rename_i c1 o heq
        rcases processItems_calls_mono cfg rfuel resp.nextPageToken
          resp.items (recCall c (.threads p)) with ⟨nc, hnc⟩
        rw [heq] at hnc
        rw [LoopRes.ctx] at hnc
        refine ⟨.threads p :: nc, ?_⟩
        rw [hnc, recCall_calls, List.append_assoc]
        rfl
      · rename_i c1 heq
        rcases processItems_calls_mono cfg rfuel resp.nextPageToken
          resp.items (recCall c (.threads p)) with ⟨nc, hnc⟩
        rw [heq] at hnc
        rw [LoopRes.ctx] at hnc
        have hc1 : c1.calls = c.calls ++ ([ApiCall.threads p] ++ nc) := by
          rw [hnc, recCall_calls, List.append_assoc]
        split
        · exact ⟨[ApiCall.threads p] ++ nc, hc1⟩
        · split
          · rcases ih none seen c1 with ⟨nc2, hnc2⟩
            refine ⟨[ApiCall.threads p] ++ nc ++ nc2, ?_⟩
            rw [hnc2, hc1, List.append_assoc]
          · rcases ih resp.nextPageToken
              (resp.nextPageToken.getD "" :: seen) c1 with ⟨nc2, hnc2⟩
            refine ⟨[ApiCall.threads p] ++ nc ++ nc2, ?_⟩
            rw [hnc2, hc1, List.append_assoc]

/-- C5: on a resumed run whose loaded checkpoint has a (truthy)
`current_top_id`, the first remote call targets that thread's reply
pagination at the saved `reply_page_token`, and any thread-list call
happens only after the resume block has finished that thread's reply
pages normally (the block fell through to `cont`, all of its calls were
reply calls for that thread, the thread is marked processed and
`current_top_id` cleared before the first thread-list request). -/
theorem reply_priority_on_resume (cfg : FetchCfg) (st0 : TraversalState)
    (t : String) (af rf mf : Nat)
    (hcur : st0.current_top_id = some t) (hne : t ≠ "")
    (hnr : cfg.no_replies = false) :
    (0 < af → (fetchRun cfg st0 af rf mf).calls.head? =
      some (.replies t st0.reply_page_token)) ∧
    (∀ i q, (fetchRun cfg st0 af rf mf).calls.get? i =
        some (.threads q) →
      ∃ c1, resumePhase cfg af (initCtx st0) = .cont c1 ∧
        (∀ x ∈ c1.calls, ∃ tok, x = ApiCall.replies t tok) ∧
        c1.calls.length ≤ i ∧
        t ∈ c1.state.processed_top_level ∧
        c1.state.current_top_id = none) := by
  have h1 : (initCtx st0).state.current_top_id = some t := hcur
  have hcond : (tokTruthy (initCtx st0).state.current_top_id &&
      !cfg.no_replies) = true := by
    rw [h1, hnr]
    simp [tokTruthy, hne]
  have hgetD : (initCtx st0).state.current_top_id.getD "" = t := by
    rw [h1]
    rfl
  have hrphase : resumePhase cfg af (initCtx st0) =
      (match resumeReplyLoop cfg t af st0.reply_page_token (initCtx st0) with
        | .halt c1 o => .halt c1 o
        | .cont c1 =>
          .cont (saveState cfg { c1 with state := { c1.state with
            processed_top_level := insertId c1.state.processed_top_level t,
            current_top_id := none, reply_page_token := none } })) := by
    unfold resumePhase
    rw [if_pos hcond, hgetD]
    rfl
  rcases resumeReplyLoop_calls cfg t af st0.reply_page_token (initCtx st0)
    with ⟨nc, hnc, hall, hhead⟩
  cases hl : resumeReplyLoop cfg t af st0.reply_page_token (initCtx st0) with
  | halt cres o =>
    rw [hl] at hnc
    rw [LoopRes.ctx] at hnc
    have hnc2 : cres.calls = nc := by rw [hnc]; rfl
    have hresPh : resumePhase cfg af (initCtx st0) = .halt cres o := by
      rw [hrphase, hl]
    have hrun : (fetchRun cfg st0 af rf mf).calls = cres.calls := by
      unfold fetchRun
      rw [hresPh]
    constructor
    · intro haf
      rw [hrun, hnc2]
      exact hhead haf
    · intro i q hi
      rw [hrun] at hi
      exfalso
      have hx := List.get?_mem hi
      rw [hnc2] at hx
      rcases hall _ hx with ⟨tok, htok⟩
      exact ApiCall.noConfusion htok
  | cont cres =>
    rw [hl] at hnc
    rw [LoopRes.ctx] at hnc
    have hnc2 : cres.calls = nc := by rw [hnc]; rfl
    have hresPh : resumePhase cfg af (initCtx st0) =
        .cont (saveState cfg { cres with state := { cres.state with
          processed_top_level := insertId cres.state.processed_top_level t,
          current_top_id := none, reply_page_token := none } }) := by
      rw [hrphase, hl]
    generalize hC2 : saveState cfg { cres with state := { cres.state with
      processed_top_level := insertId cres.state.processed_top_level t,
      current_top_id := none, reply_page_token := none } } = c2 at hresPh
    have hc2calls : c2.calls = nc := by
      rw [← hC2, saveState_calls]
      exact hnc2
    have hc2proc : t ∈ c2.state.processed_top_level := by
      rw [← hC2, saveState_state]
      exact mem_insertId _ _
    have hc2cur : c2.state.current_top_id = none := by
      rw [← hC2, saveState_state]
    have hrun : (fetchRun cfg st0 af rf mf).calls =
        (mainLoop cfg rf mf c2.state.page_token [] c2).1.calls := by
      unfold fetchRun
      rw [hresPh]
    rcases mainLoop_calls_mono cfg rf mf c2.state.page_token [] c2
      with ⟨nc2, hnc3⟩
    constructor
    · intro haf
      rw [hrun, hnc3, hc2calls]
      have hh := hhead haf
      cases hX : nc with
      | nil =>
        rw [hX] at hh
        exact absurd hh (by simp)
      | cons a ncr =>
        rw [hX] at hh
        rw [List.cons_append, List.head?_cons]
        rw [List.head?_cons] at hh
        exact hh
    · intro i q hi
      refine ⟨c2, hresPh, ?_, ?_, hc2proc, hc2cur⟩
      · intro x hx
        rw [hc2calls] at hx
        exact hall x hx
      · rw [hrun, hnc3] at hi
        by_contra hlt
        push_neg at hlt
        rw [List.get?_append hlt] at hi
        have hx := List.get?_mem hi
        rw [hc2calls] at hx
        rcases hall _ hx with ⟨tok, htok⟩
        exact ApiCall.noConfusion htok

theorem reply_priority_on_resume_w :
    (fetchRun (wCfgOf emptyApi) wStMid 1 1 1).calls.head? =
      some (.replies "T1" (some "tok")) :=
  (reply_priority_on_resume (wCfgOf emptyApi) wStMid "T1" 1 1 1 rfl
    (by decide) rfl).1 (by decide)

theorem addReplyRows_rows_parent (cfg : FetchCfg) (t : String) :
    ∀ (items : List Comment) (c : Ctx),
      ∃ nr, (addReplyRows cfg t items c).1.rows = c.rows ++ nr ∧
        ∀ row ∈ nr, row.parent_id = some t := by
  intro items
  induction items with
  | nil => intro c; exact ⟨[], by simp [addReplyRows], by simp⟩
  | cons r rest ih =>
    intro c
    simp only [addReplyRows]
    split
    · refine ⟨[replyRow cfg.video_id t r], ?_, ?_⟩
      · rw [maybeCheckpoint_rows]
      · intro row hrow
        rw [List.mem_singleton] at hrow
        rw [hrow]
        rfl
    · rcases ih (maybeCheckpoint cfg
          { c with rows := c.rows ++ [replyRow cfg.video_id t r],
                   total_rows := c.total_rows + 1 }) with ⟨nr, hnr, hall⟩
      rw [maybeCheckpoint_rows] at hnr
      refine ⟨replyRow cfg.video_id t r :: nr, ?_, ?_⟩
      · rw [hnr, List.append_assoc]
        rfl
      · intro row hrow
        rcases List.mem_cons.mp hrow with rfl | hrow2
        · rfl
        · exact hall row hrow2

theorem resumeReplyLoop_rows_parent (cfg : FetchCfg) (t : String) :
    ∀ (fuel : Nat) (p : Option String) (c : Ctx),
      ∃ nr, (resumeReplyLoop cfg t fuel p c).ctx.rows = c.rows ++ nr ∧
        ∀ row ∈ nr, row.parent_id = some t := by
  intro fuel
  induction fuel with
  | zero => intro p c; exact ⟨[], by simp [resumeReplyLoop, LoopRes.ctx],
      by simp⟩
  | succ n ih =>
    intro p c
    simp only [resumeReplyLoop]
    split
    · exact ⟨[], by rw [LoopRes.ctx, saveState_rows]; simp [recCall], by simp⟩
    · exact ⟨[], by rw [LoopRes.ctx]; simp [recCall], by simp⟩
    · exact ⟨[], by rw [LoopRes.ctx]; simp [recCall], by simp⟩
    · rename_i page hpage
      split
      · rename_i c1 heq
        rcases addReplyRows_rows_parent cfg t page.items
          (recCall c (.replies t p)) with ⟨nr, hnr, hall⟩
        rw [heq] at hnr
        refine ⟨nr, ?_, hall⟩
        rw [LoopRes.ctx, saveState_rows]
        exact hnr
      · rename_i c1 heq
        rcases addReplyRows_rows_parent cfg t page.items
          (recCall c (.replies t p)) with ⟨nr, hnr, hall⟩
        rw [heq] at hnr
        split
        · rcases ih page.nextPageToken { c1 with state :=
              { c1.state with reply_page_token := page.nextPageToken } }
            with ⟨nr2, hnr2, hall2⟩
          refine ⟨nr ++ nr2, ?_, ?_⟩
          · rw [hnr2]
            show c1.rows ++ nr2 = _
            rw [hnr, List.append_assoc]
            rfl
          · intro row hrow
            rcases List.mem_append.mp hrow with h | h
            · exact hall row h
            · exact hall2 row h
        · refine ⟨nr, ?_, hall⟩
          rw [LoopRes.ctx]
          show c1.rows = _
          exact hnr

theorem innerReplyLoop_rows_parent (cfg : FetchCfg) (t : String) :
    ∀ (fuel : Nat) (p : Option String) (c : Ctx),
      ∃ nr, (innerReplyLoop cfg t fuel p c).ctx.rows = c.rows ++ nr ∧
        ∀ row ∈ nr, row.parent_id = some t := by
  intro fuel
  induction fuel with
  | zero => intro p c; exact ⟨[], by simp [innerReplyLoop, LoopRes.ctx],
      by simp⟩
  | succ n ih =>
    intro p c
    simp only [innerReplyLoop]
    split
    · exact ⟨[], by rw [LoopRes.ctx, saveState_rows]; simp [recCall], by simp⟩
    · exact ⟨[], by rw [LoopRes.ctx]; simp [recCall], by simp⟩
    · exact ⟨[], by rw [LoopRes.ctx]; simp [recCall], by simp⟩
    · rename_i page hpage
      split
      · rename_i c1 heq
        rcases addReplyRows_rows_parent cfg t page.items
          (recCall c (.replies t p)) with ⟨nr, hnr, hall⟩
        rw [heq] at hnr
        refine ⟨nr, ?_, hall⟩
        rw [LoopRes.ctx, saveState_rows]
        show c1.rows = _
        exact hnr
      · rename_i c1 heq
        rcases addReplyRows_rows_parent cfg t page.items
          (recCall c (.replies t p)) with ⟨nr, hnr, hall⟩
        rw [heq] at hnr
        split
        · rcases ih page.nextPageToken { c1 with state :=
              { c1.state with reply_page_token := page.nextPageToken } }
            with ⟨nr2, hnr2, hall2⟩
          refine ⟨nr ++ nr2, ?_, ?_⟩
          · rw [hnr2]
            show c1.rows ++ nr2 = _
            rw [hnr, List.append_assoc]
            rfl
          · intro row hrow
            rcases List.mem_append.mp hrow with h | h
            · exact hall row h
            · exact hall2 row h
        · refine ⟨nr, ?_, hall⟩
          rw [LoopRes.ctx]
          show c1.rows = _
          exact hnr

theorem processItems_rows_parent (cfg : FetchCfg) (rfuel : Nat)
    (nt : Option String) :
    ∀ (items : List ThreadItem) (c : Ctx),
      ∃ nr, (processItems cfg rfuel nt items c).ctx.rows = c.rows ++ nr ∧
        ∀ row ∈ nr, row.parent_id = none ∨
          ∃ x ∈ items, row.parent_id = some x.top.id := by
  intro items
  induction items with
  | nil => intro c; exact ⟨[], by simp [processItems, LoopRes.ctx], by simp⟩
  | cons it rest ih =>
    intro c
    simp only [processItems]
    split
    · rcases ih c with ⟨nr, hnr, hall⟩
      refine ⟨nr, hnr, ?_⟩
      intro row hrow
      rcases hall row hrow with h | ⟨x, hx, hpx⟩
      · exact Or.inl h
      · exact Or.inr ⟨x, List.mem_cons_of_mem _ hx, hpx⟩
    · have hc1 : (maybeCheckpoint cfg
          { c with rows := c.rows ++ [topRow cfg.video_id it.top],
                   total_rows := c.total_rows + 1,
                   fetched_threads := c.fetched_threads + 1 }).rows =
          c.rows ++ [topRow cfg.video_id it.top] := maybeCheckpoint_rows cfg _
      split
      · refine ⟨[topRow cfg.video_id it.top], ?_, ?_⟩
        · rw [LoopRes.ctx, saveState_rows]
          exact hc1
        · intro row hrow
          rw [List.mem_singleton] at hrow
          rw [hrow]
          exact Or.inl rfl
      · split
        · refine ⟨[topRow cfg.video_id it.top], ?_, ?_⟩
          · rw [LoopRes.ctx, saveState_rows]
            exact hc1
          · intro row hrow
            rw [List.mem_singleton] at hrow
            rw [hrow]
            exact Or.inl rfl
        · split
          · rcases ih (maybeCheckpoint cfg
                { c with rows := c.rows ++ [topRow cfg.video_id it.top],
                         total_rows := c.total_rows + 1,
                         fetched_threads := c.fetched_threads + 1 })
              with ⟨nr, hnr, hall⟩
            rw [hc1] at hnr
            refine ⟨topRow cfg.video_id it.top :: nr, ?_, ?_⟩
            · rw [hnr, List.append_assoc]
              rfl
            · intro row hrow
              rcases List.mem_cons.mp hrow with rfl | hrow2
              · exact Or.inl rfl
              · rcases hall row hrow2 with h | ⟨x, hx, hpx⟩
                · exact Or.inl h
                · exact Or.inr ⟨x, List.mem_cons_of_mem _ hx, hpx⟩
          · rcases addReplyRows_rows_parent cfg it.top.id it.inlineReplies
              (maybeCheckpoint cfg
                { c with rows := c.rows ++ [topRow cfg.video_id it.top],
                         total_rows := c.total_rows + 1,
                         fetched_threads := c.fetched_threads + 1 })
              with ⟨nrA, hnrA, hallA⟩
            rw [hc1] at hnrA
            split
            · rename_i c2 heq
              rw [heq] at hnrA
              have hA : c2.rows =
                  c.rows ++ [topRow cfg.video_id it.top] ++ nrA := hnrA
              refine ⟨topRow cfg.video_id it.top :: nrA, ?_, ?_⟩
              · rw [LoopRes.ctx, saveState_rows]
                show c2.rows = _
                rw [hA, List.append_assoc]
                rfl
              · intro row hrow
                rcases List.mem_cons.mp hrow with rfl | hrow2
                · exact Or.inl rfl
                · exact Or.inr ⟨it, List.mem_cons_self _ _, hallA row hrow2⟩
            · rename_i c2 heq
              rw [heq] at hnrA
              have hA : c2.rows =
                  c.rows ++ [topRow cfg.video_id it.top] ++ nrA := hnrA
              split
              · rcases innerReplyLoop_rows_parent cfg it.top.id rfuel none
                    (saveState cfg { c2 with state := { c2.state with
                      current_top_id := some it.top.id,
                      reply_page_token := none } }) with ⟨nrB, hnrB, hallB⟩
                have hsv : (saveState cfg { c2 with state := { c2.state with
                    current_top_id := some it.top.id,
                    reply_page_token := none } }).rows = c2.rows :=
                  saveState_rows cfg _
                rw [hsv] at hnrB
                split
                · rename_i c4 o heq2
                  rw [heq2] at hnrB
                  have hB : c4.rows = c2.rows ++ nrB := hnrB
                  refine ⟨topRow cfg.video_id it.top :: (nrA ++ nrB),
                    ?_, ?_⟩
                  · rw [LoopRes.ctx]
                    rw [hB, hA]
                    simp [List.append_assoc]
                  · intro row hrow
                    rcases List.mem_cons.mp hrow with rfl | hrow2
                    · exact Or.inl rfl
                    · rcases List.mem_append.mp hrow2 with h | h
                      · exact Or.inr ⟨it, List.mem_cons_self _ _,
                          hallA row h⟩
                      · exact Or.inr ⟨it, List.mem_cons_self _ _,
                          hallB row h⟩
                · rename_i c4 heq2
                  rw [heq2] at hnrB
                  have hB : c4.rows = c2.rows ++ nrB := hnrB
                  rcases ih (saveState cfg { c4 with state := { c4.state with
                      processed_top_level :=
                        insertId c4.state.processed_top_level it.top.id,
                      current_top_id := none, reply_page_token := none } })
                    with ⟨nrC, hnrC, hallC⟩
                  have hsv2 : (saveState cfg { c4 with state :=
                      { c4.state with
                        processed_top_level :=
                          insertId c4.state.processed_top_level it.top.id,
                        current_top_id := none,
                        reply_page_token := none } }).rows = c4.rows :=
                    saveState_rows cfg _
                  rw [hsv2] at hnrC
                  refine ⟨topRow cfg.video_id it.top :: (nrA ++ nrB ++ nrC),
                    ?_, ?_⟩
                  · rw [hnrC, hB, hA]
                    simp [List.append_assoc]
                  · intro row hrow
                    rcases List.mem_cons.mp hrow with rfl | hrow2
                    · exact Or.inl rfl
                    · rcases List.mem_append.mp hrow2 with h | hC
                      · rcases List.mem_append.mp h with hA2 | hB2
                        · exact Or.inr ⟨it, List.mem_cons_self _ _,
                            hallA row hA2⟩
                        · exact Or.inr ⟨it, List.mem_cons_self _ _,
                            hallB row hB2⟩
                      · rcases hallC row hC with h2 | ⟨x, hx, hpx⟩
                        · exact Or.inl h2
                        · exact Or.inr ⟨x, List.mem_cons_of_mem _ hx, hpx⟩
              · rcases ih c2 with ⟨nrC, hnrC, hallC⟩
                rw [hA] at hnrC
                refine ⟨topRow cfg.video_id it.top :: (nrA ++ nrC), ?_, ?_⟩
                · rw [hnrC]
                  simp [List.append_assoc]
                · intro row hrow
                  rcases List.mem_cons.mp hrow with rfl | hrow2
                  · exact Or.inl rfl
                  · rcases List.mem_append.mp hrow2 with h | hC
                    · exact Or.inr ⟨it, List.mem_cons_self _ _, hallA row h⟩
                    · rcases hallC row hC with h2 | ⟨x, hx, hpx⟩
                      · exact Or.inl h2
                      · exact Or.inr ⟨x, List.mem_cons_of_mem _ hx, hpx⟩

theorem mainLoop_rows_parent (cfg : FetchCfg) (rfuel : Nat) (t : String)
    (hapi : ∀ n q page, cfg.api.threads n q = .ok page →
      ∀ x ∈ page.items, x.top.id ≠ t) :
    ∀ (fuel : Nat) (p : Option String) (seen : List String) (c : Ctx),
      ∃ nr, (mainLoop cfg rfuel fuel p seen c).1.rows = c.rows ++ nr ∧
        ∀ row ∈ nr, row.parent_id ≠ some t := by
  intro fuel
  induction fuel with
  | zero => intro p seen c; exact ⟨[], by simp [mainLoop], by simp⟩
  | succ n ih =>
    intro p seen c
    simp only [mainLoop]
    split
    · exact ⟨[], by rw [saveState_rows]; simp [recCall], by simp⟩
    · split
      · rcases ih none seen (recCall c (.threads p)) with ⟨nr, hnr, hall⟩
        exact ⟨nr, hnr, hall⟩
      · exact ⟨[], by simp [recCall], by simp⟩
    · exact ⟨[], by simp [recCall], by simp⟩
    · rename_i resp hresp
      have hids : ∀ x ∈ resp.items, x.top.id ≠ t :=
        hapi c.ncalls p resp hresp
      rcases processItems_rows_parent cfg rfuel resp.nextPageToken resp.items
        (recCall c (.threads p)) with ⟨nr, hnr, hall⟩
      have hnotT : ∀ row ∈ nr, row.parent_id ≠ some t := by
        intro row hrow
        rcases hall row hrow with h | ⟨x, hx, hpx⟩
        · rw [h]
          exact fun hcon => Option.noConfusion hcon
        · rw [hpx]
          intro hcon
          have : x.top.id = t := Option.some.inj hcon
          exact hids x hx this
      split
      · rename_i c1 o heq
        rw [heq] at hnr
        have h1 : c1.rows = c.rows ++ nr := hnr
        exact ⟨nr, h1, hnotT⟩
      · rename_i c1 heq
        rw [heq] at hnr
        have h1 : c1.rows = c.rows ++ nr := hnr
        split
        · exact ⟨nr, h1, hnotT⟩
        · split
          · rcases ih none seen c1 with ⟨nr2, hnr2, hall2⟩
            rw [h1] at hnr2
            refine ⟨nr ++ nr2, by rw [hnr2, List.append_assoc], ?_⟩
            intro row hrow
            rcases List.mem_append.mp hrow with h | h
            · exact hnotT row h
            · exact hall2 row h
          · rcases ih resp.nextPageToken
              (resp.nextPageToken.getD "" :: seen) c1 with ⟨nr2, hnr2, hall2⟩
            rw [h1] at hnr2
            refine ⟨nr ++ nr2, by rw [hnr2, List.append_assoc], ?_⟩
            intro row hrow
            rcases List.mem_append.mp hrow with h | h
            · exact hnotT row h
            · exact hall2 row h

theorem resumePhase_skip (cfg : FetchCfg) (af : Nat) (st0 : TraversalState)
    (hcur : tokTruthy st0.current_top_id = false) :
    resumePhase cfg af (initCtx st0) = .cont (initCtx st0) := by
  unfold resumePhase
  have h2 : tokTruthy (initCtx st0).state.current_top_id = false := hcur
  rw [h2]
  rfl

theorem fetchRun_rows_parent (cfg : FetchCfg) (st0 : TraversalState)
    (af rf mf : Nat) (t : String)
    (hcur : tokTruthy st0.current_top_id = false)
    (hapi : ∀ n q page, cfg.api.threads n q = .ok page →
      ∀ x ∈ page.items, x.top.id ≠ t) :
    ∀ row ∈ (fetchRun cfg st0 af rf mf).rows, row.parent_id ≠ some t := by
  intro row hrow
  have hres := resumePhase_skip cfg af st0 hcur
  rcases mainLoop_rows_parent cfg rf t hapi mf
    (initCtx st0).state.page_token [] (initCtx st0) with ⟨nr, hnr, hall⟩
  have hrun : (fetchRun cfg st0 af rf mf).rows =
      (mainLoop cfg rf mf (initCtx st0).state.page_token []
        (initCtx st0)).1.rows := by
    unfold fetchRun
    rw [hres]
  rw [hrun, hnr] at hrow
  have hrow2 : row ∈ nr := by
    have : (initCtx st0).rows = [] := rfl
    rw [this] at hrow
    rw [List.nil_append] at hrow
    exact hrow
  exact hall row hrow2

theorem mainLoop_head_call (cfg : FetchCfg) (rf : Nat) :
    ∀ (m : Nat) (p : Option String) (seen : List String) (c : Ctx),
      ∃ nc, (mainLoop cfg rf (m + 1) p seen c).1.calls =
        c.calls ++ (.threads p :: nc) := by
  intro m p seen c
  simp only [mainLoop]
  split
  · exact ⟨[], by rw [saveState_calls, recCall_calls]⟩
  · split
    · rcases mainLoop_calls_mono cfg rf m none seen
        (recCall c (.threads p)) with ⟨nc, hnc⟩
      refine ⟨nc, ?_⟩
      rw [hnc, recCall_calls, List.append_assoc]
      rfl
    · exact ⟨[], recCall_calls c _⟩
  · exact ⟨[], recCall_calls c _⟩
  · rename_i resp hresp
    split
    · rename_i c1 o heq
      rcases processItems_calls_mono cfg rf resp.nextPageToken resp.items
        (recCall c (.threads p)) with ⟨nc, hnc⟩
      rw [heq] at hnc
      rw [LoopRes.ctx] at hnc
      refine ⟨nc, ?_⟩
      rw [hnc, recCall_calls, List.append_assoc]
      rfl
    · rename_i c1 heq
      rcases processItems_calls_mono cfg rf resp.nextPageToken resp.items
        (recCall c (.threads p)) with ⟨nc, hnc⟩
      rw [heq] at hnc
      rw [LoopRes.ctx] at hnc
      have h1 : c1.calls = c.calls ++ (ApiCall.threads p :: nc) := by
        rw [hnc, recCall_calls, List.append_assoc]
        rfl
      split
      · exact ⟨nc, h1⟩
      · split
        · rcases mainLoop_calls_mono cfg rf m none seen c1 with ⟨nc2, hnc2⟩
          refine ⟨nc ++ nc2, ?_⟩
          rw [hnc2, h1, List.append_assoc]
          rfl
        · rcases mainLoop_calls_mono cfg rf m resp.nextPageToken
            (resp.nextPageToken.getD "" :: seen) c1 with ⟨nc2, hnc2⟩
          refine ⟨nc ++ nc2, ?_⟩
          rw [hnc2, h1, List.append_assoc]
          rfl

/-- C9: when appending a top-level record fires the `max_top_level` guard,
the run returns immediately: the halting context has exactly that one new
row, made no further remote calls (the final thread's inline replies and
reply pages are never fetched), did not add the thread to
`processed_top_level`, left `current_top_id` unchanged, and set — and, if
saving, persisted — `page_token` to the thread page's next-page token;
consequently a run resumed from a checkpoint that is not mid-reply,
against an upstream whose thread pages do not serve that thread again,
starts at the saved thread-list token and emits no row parented to the cut
thread, so its replies are absent from the resumed output as well. -/
theorem max_top_limit_skips_final_replies (cfg : FetchCfg) (rfuel : Nat)
    (nt : Option String) (it : ThreadItem) (rest : List ThreadItem) (c : Ctx)
    (cfg2 : FetchCfg) (st2 : TraversalState) (af2 rf2 mf2 : Nat)
    (hmem : it.top.id ∉ c.state.processed_top_level)
    (hhit : cfg.topHit (c.fetched_threads + 1) = true)
    (hcur2 : tokTruthy st2.current_top_id = false)
    (hapi2 : ∀ n q page, cfg2.api.threads n q = .ok page →
      ∀ x ∈ page.items, x.top.id ≠ it.top.id) :
    (∃ C, processItems cfg rfuel nt (it :: rest) c = .halt C .returned ∧
      C.rows = c.rows ++ [topRow cfg.video_id it.top] ∧
      C.calls = c.calls ∧
      C.state.processed_top_level = c.state.processed_top_level ∧
      C.state.current_top_id = c.state.current_top_id ∧
      C.state.page_token = nt ∧
      (cfg.save_state = true → C.persisted.getLast? = some C.state)) ∧
    (∃ nc, (fetchRun cfg2 st2 af2 rf2 (mf2 + 1)).calls =
      .threads st2.page_token :: nc) ∧
    (∀ row ∈ (fetchRun cfg2 st2 af2 rf2 (mf2 + 1)).rows,
      row.parent_id ≠ some it.top.id) := by
  refine ⟨?_, ?_, fetchRun_rows_parent cfg2 st2 af2 rf2 (mf2 + 1)
    it.top.id hcur2 hapi2⟩
  · simp only [processItems]
    rw [if_neg hmem]
    generalize hC1 : maybeCheckpoint cfg
      { c with rows := c.rows ++ [topRow cfg.video_id it.top],
               total_rows := c.total_rows + 1,
               fetched_threads := c.fetched_threads + 1 } = c1
    have h1f : c1.fetched_threads = c.fetched_threads + 1 := by
      rw [← hC1, maybeCheckpoint_fetched]
    have h1r : c1.rows = c.rows ++ [topRow cfg.video_id it.top] := by
      rw [← hC1, maybeCheckpoint_rows]
    have h1c : c1.calls = c.calls := by
      rw [← hC1, maybeCheckpoint_calls]
    have h1s : c1.state = c.state := by
      rw [← hC1, maybeCheckpoint_state]
    rw [h1f, hhit]
    rw [if_pos (rfl : (true : Bool) = true)]
    refine ⟨_, rfl, ?_, ?_, ?_, ?_, ?_, ?_⟩
    · rw [saveState_rows]
      exact h1r
    · rw [saveState_calls]
      exact h1c
    · rw [saveState_state]
      show c1.state.processed_top_level = _
      rw [h1s]
    · rw [saveState_state]
      show c1.state.current_top_id = _
      rw [h1s]
    · rw [saveState_state]
    · intro hsv
      rw [saveState_persisted_on cfg _ hsv, saveState_state]
      exact List.getLast?_concat _
  · have hres := resumePhase_skip cfg2 af2 st2 hcur2
    rcases mainLoop_head_call cfg2 rf2 mf2 (initCtx st2).state.page_token []
      (initCtx st2) with ⟨nc, hnc⟩
    refine ⟨nc, ?_⟩
    have hrun : (fetchRun cfg2 st2 af2 rf2 (mf2 + 1)).calls =
        (mainLoop cfg2 rf2 (mf2 + 1) (initCtx st2).state.page_token []
          (initCtx st2)).1.calls := by
      unfold fetchRun
      rw [hres]
    rw [hrun, hnc]
    rfl

theorem max_top_limit_skips_final_replies_w :
    ∃ nc, (fetchRun (wCfgOf emptyApi) wStTok 1 1 (1 + 1)).calls =
      .threads (some "p1") :: nc :=
  (max_top_limit_skips_final_replies wCfgTop 1 none wItemBig []
    (initCtx wStFresh) (wCfgOf emptyApi) wStTok 1 1 1
    (by decide) (by decide) (by decide)
    (by
      intro n q page h x hx
      have h3 : ApiResult.ok (⟨[], none⟩ : ThreadPage) = .ok page := h
      cases h3
      exact absurd hx (List.not_mem_nil x))).2.1

theorem saveState_fetched (cfg : FetchCfg) (c : Ctx) :
    (saveState cfg c).fetched_threads = c.fetched_threads := by
  unfold saveState
  split <;> rfl

theorem mem_insertId_iff (xs : List String) (t a : String) :
    a ∈ insertId xs t ↔ a ∈ xs ∨ a = t := by
  unfold insertId
  split
  · rename_i h
    constructor
    · exact fun h2 => Or.inl h2
    · intro h2
      rcases h2 with h2 | rfl
      · exact h2
      · exact h
  · constructor
    · intro h2
      rcases List.mem_append.mp h2 with h2 | h2
      · exact Or.inl h2
      · exact Or.inr (List.mem_singleton.mp h2)
    · intro h2
      rcases h2 with h2 | rfl
      · exact List.mem_append_left _ h2
      · exact List.mem_append_right _ (List.mem_singleton.mpr rfl)

theorem tokIdx_rTok (i : Nat) : tokIdx (rTok i) = i := by
  cases i with
  | zero => rfl
  | succ j =>
    show (String.mk (List.replicate (j + 1) 'r')).length = j + 1
    simp [String.length]

theorem tokIdx_pageTok (i : Nat) : tokIdx (pageTok i) = i := by
  cases i with
  | zero => rfl
  | succ j =>
    show (String.mk (List.replicate (j + 1) 'p')).length = j + 1
    simp [String.length]

theorem tokTruthy_rTok (i : Nat) : tokTruthy (rTok (i + 1)) = true := by
  simp only [rTok, tokTruthy, Bool.not_eq_true']
  rw [beq_eq_false_iff_ne]
  intro h
  have h2 := congrArg String.data h
  simp at h2

theorem tokTruthy_pageTok (i : Nat) : tokTruthy (pageTok (i + 1)) = true := by
  simp only [pageTok, tokTruthy, Bool.not_eq_true']
  rw [beq_eq_false_iff_ne]
  intro h
  have h2 := congrArg String.data h
  simp at h2

theorem pageTok_getD_len (i : Nat) :
    ((pageTok (i + 1)).getD "").length = i + 1 := by
  show (String.mk (List.replicate (i + 1) 'p')).length = i + 1
  simp [String.length]

theorem pagedReplies_ne_err (R : String → List (List Comment)) (n : Nat)
    (pid : String) (tok : Option String) (e : ApiError) :
    pagedReplies R n pid tok ≠ .err e := by
  unfold pagedReplies
  split <;> simp

theorem pagedThreads_ne_err (pages : List (List ThreadItem)) (n : Nat)
    (tok : Option String) (e : ApiError) :
    pagedThreads pages n tok ≠ .err e := by
  unfold pagedThreads
  split <;> simp

theorem innerReplyLoop_paged (cfg : FetchCfg)
    (R : String → List (List Comment))
    (hapi : cfg.api.replies = pagedReplies R)
    (htot : cfg.totalHit = limitHit none) (pid : String) :
    ∀ (fuel j : Nat) (c : Ctx), (R pid).length - j < fuel →
      ∃ c2, innerReplyLoop cfg pid fuel (rTok j) c = .cont c2 ∧
        countNulls c2.rows = countNulls c.rows ∧
        c2.fetched_threads = c.fetched_threads ∧
        c2.state.processed_top_level = c.state.processed_top_level ∧
        c2.state.page_token = c.state.page_token ∧
        c2.state.current_top_id = c.state.current_top_id := by
  intro fuel
  induction fuel with
  | zero => intro j c h; omega
  | succ n ih =>
    intro j c h
    simp only [innerReplyLoop]
    split
    · rename_i heq
      rw [hapi] at heq
      exact absurd heq (pagedReplies_ne_err R _ _ _ _)
    · rename_i heq
      rw [hapi] at heq
      exact absurd heq (pagedReplies_ne_err R _ _ _ _)
    · rename_i heq
      rw [hapi] at heq
      exact absurd heq (pagedReplies_ne_err R _ _ _ _)
    · rename_i page heq
      rw [hapi] at heq
      by_cases hj : j < (R pid).length
      · have hval : pagedReplies R c.ncalls pid (rTok j) =
            .ok ⟨(R pid).get ⟨j, hj⟩,
              if j + 1 < (R pid).length then rTok (j + 1) else none⟩ := by
          unfold pagedReplies
          rw [dif_pos (by rw [tokIdx_rTok]; exact hj)]
          simp [tokIdx_rTok]
        rw [hval] at heq
        cases heq
        split
        · rename_i c1 heq2
          have h2 := addReplyRows_no_limit cfg pid htot
            ((R pid).get ⟨j, hj⟩) (recCall c (.replies pid (rTok j)))
          rw [heq2] at h2
          exact absurd h2.1 (by simp)
        · rename_i c1 heq2
          have h2 := addReplyRows_no_limit cfg pid htot
            ((R pid).get ⟨j, hj⟩) (recCall c (.replies pid (rTok j)))
          have hst : c1.state = c.state := by
            have e1 := addReplyRows_state cfg pid ((R pid).get ⟨j, hj⟩)
              (recCall c (.replies pid (rTok j)))
            rw [heq2] at e1
            exact e1
          rw [heq2] at h2
          have hcn : countNulls c1.rows = countNulls c.rows := by
            have := h2.2.1
            show countNulls c1.rows = _
            rw [this]
            rfl
          have hft : c1.fetched_threads = c.fetched_threads := h2.2.2
          by_cases hj2 : j + 1 < (R pid).length
          · rw [if_pos hj2]
            rw [if_pos (tokTruthy_rTok j)]
            rcases ih (j + 1) { c1 with state :=
                { c1.state with reply_page_token := rTok (j + 1) } }
              (by omega) with ⟨c2, hc2, hcn2, hft2, hp2, hpt2, hcur2⟩
            refine ⟨c2, hc2, ?_, ?_, ?_, ?_, ?_⟩
            · rw [hcn2]
              exact hcn
            · rw [hft2]
              exact hft
            · rw [hp2]
              show c1.state.processed_top_level = _
              rw [hst]
            · rw [hpt2]
              show c1.state.page_token = _
              rw [hst]
            · rw [hcur2]
              show c1.state.current_top_id = _
              rw [hst]
          · rw [if_neg hj2]
            rw [if_neg (by simp [tokTruthy])]
            refine ⟨_, rfl, hcn, hft, ?_, ?_, ?_⟩
            · show c1.state.processed_top_level = _
              rw [hst]
            · show c1.state.page_token = _
              rw [hst]
            · show c1.state.current_top_id = _
              rw [hst]
      · have hval : pagedReplies R c.ncalls pid (rTok j) =
            .ok ⟨[], none⟩ := by
          unfold pagedReplies
          rw [dif_neg (by rw [tokIdx_rTok]; exact hj)]
        rw [hval] at heq
        cases heq
        split
        · rename_i c1 heq2
          have h2 := addReplyRows_no_limit cfg pid htot
            [] (recCall c (.replies pid (rTok j)))
          rw [heq2] at h2
          exact absurd h2.1 (by simp)
        · rename_i c1 heq2
          have hst : c1.state = c.state := by
            have e1 := addReplyRows_state cfg pid []
              (recCall c (.replies pid (rTok j)))
            rw [heq2] at e1
            exact e1
          have h2 := addReplyRows_no_limit cfg pid htot
            [] (recCall c (.replies pid (rTok j)))
          rw [heq2] at h2
          have hcn : countNulls c1.rows = countNulls c.rows := by
            have := h2.2.1
            show countNulls c1.rows = _
            rw [this]
            rfl
          rw [if_neg (by simp [tokTruthy])]
          refine ⟨_, rfl, hcn, h2.2.2, ?_, ?_, ?_⟩
          · show c1.state.processed_top_level = _
            rw [hst]
          · show c1.state.page_token = _
            rw [hst]
          · show c1.state.current_top_id = _
            rw [hst]

theorem processItems_paged_count (cfg : FetchCfg)
    (R : String → List (List Comment)) (k rfuel : Nat) (nt : Option String)
    (hapi : cfg.api.replies = pagedReplies R)
    (htop : cfg.topHit = limitHit (some k))
    (htot : cfg.totalHit = limitHit none)
    (hrf : ∀ pid, (R pid).length < rfuel) :
    ∀ (items : List ThreadItem) (c : Ctx),
      (∀ it ∈ items, it.top.id ∉ c.state.processed_top_level) →
      (items.map (fun x => x.top.id)).Nodup →
      c.fetched_threads < k →
      countNulls (processItems cfg rfuel nt items c).ctx.rows =
        countNulls c.rows + min (k - c.fetched_threads) items.length ∧
      (∀ c1 o, processItems cfg rfuel nt items c = .halt c1 o →
        o = .returned ∧ k ≤ c.fetched_threads + items.length) ∧
      (∀ c1, processItems cfg rfuel nt items c = .cont c1 →
        c1.fetched_threads = c.fetched_threads + items.length ∧
        c.fetched_threads + items.length < k ∧
        ∀ tid, tid ∈ c1.state.processed_top_level →
          tid ∈ c.state.processed_top_level ∨
          tid ∈ items.map (fun x => x.top.id)) := by
  intro items
  induction items with
  | nil =>
    intro c _ _ hflt
    refine ⟨by simp [processItems, LoopRes.ctx], ?_, ?_⟩
    · intro c1 o h
      exact LoopRes.noConfusion h
    · intro c1 h
      cases h
      exact ⟨by simp, by simpa using hflt, fun tid ht => Or.inl ht⟩
  | cons it rest ih =>
    intro c hin hnd hflt
    have hndh : it.top.id ∉ rest.map (fun x => x.top.id) :=
      (List.nodup_cons.mp hnd).1
    have hndt : (rest.map (fun x => x.top.id)).Nodup :=
      (List.nodup_cons.mp hnd).2
    simp only [processItems]
    rw [if_neg (hin it (List.mem_cons_self _ _))]
    have hc1rows : (maybeCheckpoint cfg
        { c with rows := c.rows ++ [topRow cfg.video_id it.top],
                 total_rows := c.total_rows + 1,
                 fetched_threads := c.fetched_threads + 1 }).rows =
        c.rows ++ [topRow cfg.video_id it.top] := maybeCheckpoint_rows cfg _
    have hc1f : (maybeCheckpoint cfg
        { c with rows := c.rows ++ [topRow cfg.video_id it.top],
                 total_rows := c.total_rows + 1,
                 fetched_threads := c.fetched_threads + 1 }).fetched_threads =
        c.fetched_threads + 1 := maybeCheckpoint_fetched cfg _
    have hc1st : (maybeCheckpoint cfg
        { c with rows := c.rows ++ [topRow cfg.video_id it.top],
                 total_rows := c.total_rows + 1,
                 fetched_threads := c.fetched_threads + 1 }).state =
        c.state := maybeCheckpoint_state cfg _
    rw [htop, htot, hc1f]
    by_cases hlim : k ≤ c.fetched_threads + 1
    · have hhit : limitHit (some k) (c.fetched_threads + 1) = true := by
        simp only [limitHit, Bool.and_eq_true, decide_eq_true_eq]
        omega
      rw [hhit]
      simp only [if_true]
      refine ⟨?_, ?_, ?_⟩
      · rw [LoopRes.ctx, saveState_rows]
        have : (maybeCheckpoint cfg
            { c with rows := c.rows ++ [topRow cfg.video_id it.top],
                     total_rows := c.total_rows + 1,
                     fetched_threads := c.fetched_threads + 1 }).rows =
            c.rows ++ [topRow cfg.video_id it.top] := hc1rows
        rw [this, countNulls_append_top]
        have hmin : min (k - c.fetched_threads) (rest.length + 1) = 1 := by
          omega
        rw [List.length_cons, hmin]
      · intro c1 o h
        cases h
        refine ⟨rfl, ?_⟩
        simp only [List.length_cons]
        omega
      · intro c1 h
        exact LoopRes.noConfusion h
    · have hmiss : limitHit (some k) (c.fetched_threads + 1) = false := by
        simp only [limitHit, Bool.and_eq_false_iff, decide_eq_false_iff_not]
        omega
      rw [hmiss]
      have hnone : limitHit none (maybeCheckpoint cfg
          { c with rows := c.rows ++ [topRow cfg.video_id it.top],
                   total_rows := c.total_rows + 1,
                   fetched_threads := c.fetched_threads + 1 }).total_rows =
          false := rfl
      rw [hnone]
      simp only [Bool.false_eq_true, if_false]
      split
      · -- no_replies branch
        have hrec := ih (maybeCheckpoint cfg
          { c with rows := c.rows ++ [topRow cfg.video_id it.top],
                   total_rows := c.total_rows + 1,
                   fetched_threads := c.fetched_threads + 1 })
          (fun x hx => by
            rw [hc1st]
            exact hin x (List.mem_cons_of_mem _ hx))
          hndt (by omega)
        rw [hc1f, hc1st, hc1rows, countNulls_append_top] at hrec
        refine ⟨?_, ?_, ?_⟩
        · rw [hrec.1, List.length_cons]
          omega
        · intro c1 o h
          obtain ⟨ho, hk2⟩ := hrec.2.1 c1 o h
          refine ⟨ho, ?_⟩
          simp only [List.length_cons]
          omega
        · intro c1 h
          obtain ⟨hf1, hlt1, hsub⟩ := hrec.2.2 c1 h
          refine ⟨?_, ?_, ?_⟩
          · rw [hf1, List.length_cons]
            omega
          · simp only [List.length_cons]
            omega
          · intro tid htid
            rcases hsub tid htid with h1 | h1
            · exact Or.inl h1
            · exact Or.inr (List.mem_cons_of_mem _ h1)
      · -- replies enabled
        split
        · rename_i c2 heq
          have h2 := addReplyRows_no_limit cfg it.top.id htot
            it.inlineReplies (maybeCheckpoint cfg
              { c with rows := c.rows ++ [topRow cfg.video_id it.top],
                       total_rows := c.total_rows + 1,
                       fetched_threads := c.fetched_threads + 1 })
          rw [heq] at h2
          exact absurd h2.1 (by simp)
        · rename_i c2 heq
          have h2 := addReplyRows_no_limit cfg it.top.id htot
            it.inlineReplies (maybeCheckpoint cfg
              { c with rows := c.rows ++ [topRow cfg.video_id it.top],
                       total_rows := c.total_rows + 1,
                       fetched_threads := c.fetched_threads + 1 })
          have hst2 : c2.state = c.state := by
            have e1 := addReplyRows_state cfg it.top.id it.inlineReplies
              (maybeCheckpoint cfg
                { c with rows := c.rows ++ [topRow cfg.video_id it.top],
                         total_rows := c.total_rows + 1,
                         fetched_threads := c.fetched_threads + 1 })
            rw [heq] at e1
            rw [e1, hc1st]
          rw [heq] at h2
          have hrows2 : countNulls c2.rows = countNulls c.rows + 1 := by
            have := h2.2.1
            rw [hc1rows, countNulls_append_top] at this
            exact this
          have hf2 : c2.fetched_threads = c.fetched_threads + 1 := by
            rw [h2.2.2, hc1f]
          by_cases htrc : it.totalReplyCount = 0
          · rw [htrc]
            simp only [ne_eq, not_true_eq_false, if_false]
            have hrec := ih c2
              (fun x hx => by
                rw [hst2]
                exact hin x (List.mem_cons_of_mem _ hx))
              hndt (by omega)
            rw [hf2, hst2, hrows2] at hrec
            refine ⟨?_, ?_, ?_⟩
            · rw [hrec.1, List.length_cons]
              omega
            · intro c1 o h
              obtain ⟨ho, hk2⟩ := hrec.2.1 c1 o h
              refine ⟨ho, ?_⟩
              simp only [List.length_cons]
              omega
            · intro c1 h
              obtain ⟨hf1, hlt1, hsub⟩ := hrec.2.2 c1 h
              refine ⟨?_, ?_, ?_⟩
              · rw [hf1, List.length_cons]
                omega
              · simp only [List.length_cons]
                omega
              · intro tid htid
                rcases hsub tid htid with h1 | h1
                · exact Or.inl h1
                · exact Or.inr (List.mem_cons_of_mem _ h1)
          · rw [if_pos htrc]
            rcases innerReplyLoop_paged cfg R hapi htot it.top.id rfuel 0
                (saveState cfg { c2 with state := { c2.state with
                  current_top_id := some it.top.id,
                  reply_page_token := none } })
                (by have := hrf it.top.id; omega) with
              ⟨c4, hc4, hcn4, hft4, hp4, hpt4, hcur4⟩
            have hc4n : innerReplyLoop cfg it.top.id rfuel none
                (saveState cfg { c2 with state := { c2.state with
                  current_top_id := some it.top.id,
                  reply_page_token := none } }) = .cont c4 := hc4
            have hcn4b : countNulls c4.rows = countNulls c.rows + 1 := by
              rw [hcn4, saveState_rows]
              show countNulls c2.rows = _
              exact hrows2
            have hft4b : c4.fetched_threads = c.fetched_threads + 1 := by
              rw [hft4, saveState_fetched]
              show c2.fetched_threads = _
              exact hf2
            have hp4b : c4.state.processed_top_level =
                c.state.processed_top_level := by
              rw [hp4, saveState_state]
              show c2.state.processed_top_level = _
              rw [hst2]
            split
            · rename_i c4v o heq4
              rw [hc4n] at heq4
              exact LoopRes.noConfusion heq4
            · rename_i c4v heq4
              rw [hc4n] at heq4
              cases heq4
              have hcNst : (saveState cfg { c4 with state := { c4.state with
                  processed_top_level :=
                    insertId c4.state.processed_top_level it.top.id,
                  current_top_id := none,
                  reply_page_token := none } }).state.processed_top_level =
                  insertId c.state.processed_top_level it.top.id := by
                rw [saveState_state]
                show insertId c4.state.processed_top_level it.top.id = _
                rw [hp4b]
              have hcNrows : countNulls (saveState cfg { c4 with state :=
                  { c4.state with
                    processed_top_level :=
                      insertId c4.state.processed_top_level it.top.id,
                    current_top_id := none,
                    reply_page_token := none } }).rows =
                  countNulls c.rows + 1 := by
                rw [saveState_rows]
                show countNulls c4.rows = _
                exact hcn4b
              have hcNf : (saveState cfg { c4 with state := { c4.state with
                  processed_top_level :=
                    insertId c4.state.processed_top_level it.top.id,
                  current_top_id := none,
                  reply_page_token := none } }).fetched_threads =
                  c.fetched_threads + 1 := by
                rw [saveState_fetched]
                show c4.fetched_threads = _
                exact hft4b
              have hrec := ih (saveState cfg { c4 with state :=
                  { c4.state with
                    processed_top_level :=
                      insertId c4.state.processed_top_level it.top.id,
                    current_top_id := none,
                    reply_page_token := none } })
                (fun x hx => by
                  rw [hcNst]
                  rw [mem_insertId_iff]
                  rintro (h1 | h1)
                  · exact hin x (List.mem_cons_of_mem _ hx) h1
                  · exact hndh (h1 ▸ List.mem_map_of_mem _ hx))
                hndt (by omega)
              rw [hcNf, hcNst, hcNrows] at hrec
              refine ⟨?_, ?_, ?_⟩
              · rw [hrec.1, List.length_cons]
                omega
              · intro c1 o h
                obtain ⟨ho, hk2⟩ := hrec.2.1 c1 o h
                refine ⟨ho, ?_⟩
                simp only [List.length_cons]
                omega
              · intro c1 h
                obtain ⟨hf1, hlt1, hsub⟩ := hrec.2.2 c1 h
                refine ⟨?_, ?_, ?_⟩
                · rw [hf1, List.length_cons]
                  omega
                · simp only [List.length_cons]
                  omega
                · intro tid htid
                  rcases hsub tid htid with h1 | h1
                  · rcases (mem_insertId_iff _ _ _).mp h1 with h3 | h3
                    · exact Or.inl h3
                    · refine Or.inr ?_
                      simp only [List.map_cons, List.mem_cons]
                      exact Or.inl h3
                  · exact Or.inr (List.mem_cons_of_mem _ h1)

theorem mainLoop_paged_count (cfg : FetchCfg)
    (pages : List (List ThreadItem)) (R : String → List (List Comment))
    (k rfuel : Nat)
    (hapiT : cfg.api.threads = pagedThreads pages)
    (hapiR : cfg.api.replies = pagedReplies R)
    (htop : cfg.topHit = limitHit (some k))
    (htot : cfg.totalHit = limitHit none)
    (hrf : ∀ pid, (R pid).length < rfuel) :
    ∀ (fuel i : Nat) (seen : List String) (c : Ctx),
      pages.length - i < fuel →
      (∀ it ∈ (pages.drop i).flatten,
        it.top.id ∉ c.state.processed_top_level) →
      ((pages.drop i).flatten.map (fun x => x.top.id)).Nodup →
      c.fetched_threads < k →
      (∀ s ∈ seen, s.length ≤ i) →
      countNulls (mainLoop cfg rfuel fuel (pageTok i) seen c).1.rows =
        countNulls c.rows +
          min (k - c.fetched_threads) (pages.drop i).flatten.length ∧
      (mainLoop cfg rfuel fuel (pageTok i) seen c).2 = .returned := by
  intro fuel
  induction fuel with
  | zero => intro i seen c hfu; omega
  | succ n ih =>
    intro i seen c hfu hin hnd hflt hseen
    simp only [mainLoop]
    split
    · rename_i heq
      rw [hapiT] at heq
      exact absurd heq (pagedThreads_ne_err pages _ _ _)
    · rename_i heq
      rw [hapiT] at heq
      exact absurd heq (pagedThreads_ne_err pages _ _ _)
    · rename_i heq
      rw [hapiT] at heq
      exact absurd heq (pagedThreads_ne_err pages _ _ _)
    · rename_i resp heq
      rw [hapiT] at heq
      have hrc_rows : (recCall c (.threads (pageTok i))).rows = c.rows := rfl
      have hrc_f : (recCall c (.threads (pageTok i))).fetched_threads =
        c.fetched_threads := rfl
      have hrc_st : (recCall c (.threads (pageTok i))).state = c.state := rfl
      by_cases hi : i < pages.length
      · have hdrop : pages.drop i =
            pages.get ⟨i, hi⟩ :: pages.drop (i + 1) := by
          rw [List.drop_eq_getElem_cons hi]
          rfl
        have hjoin : (pages.drop i).flatten =
            pages.get ⟨i, hi⟩ ++ (pages.drop (i + 1)).flatten := by
          rw [hdrop, List.flatten_cons]
        have hlen : (pages.drop i).flatten.length =
            (pages.get ⟨i, hi⟩).length +
              (pages.drop (i + 1)).flatten.length := by
          rw [hjoin, List.length_append]
        rw [hjoin, List.map_append] at hnd
        have hndA := hnd.of_append_left
        have hndB := hnd.of_append_right
        have hdisj := List.disjoint_of_nodup_append hnd
        rw [hjoin] at hin
        have hinA : ∀ x ∈ pages.get ⟨i, hi⟩,
            x.top.id ∉ c.state.processed_top_level :=
          fun x hx => hin x (List.mem_append_left _ hx)
        have hinB : ∀ x ∈ (pages.drop (i + 1)).flatten,
            x.top.id ∉ c.state.processed_top_level :=
          fun x hx => hin x (List.mem_append_right _ hx)
        by_cases hi2 : i + 1 < pages.length
        · have hval : pagedThreads pages c.ncalls (pageTok i) =
              .ok ⟨pages.get ⟨i, hi⟩, pageTok (i + 1)⟩ := by
            unfold pagedThreads
            rw [dif_pos (by rw [tokIdx_pageTok]; exact hi)]
            simp [tokIdx_pageTok, hi2]
          rw [hval] at heq
          cases heq
          dsimp only
          have hPC := processItems_paged_count cfg R k rfuel
            (pageTok (i + 1)) hapiR htop htot hrf (pages.get ⟨i, hi⟩)
            (recCall c (.threads (pageTok i)))
            (fun x hx => hinA x hx) hndA (by rw [hrc_f]; exact hflt)
          split
          · rename_i c1 o heqP
            obtain ⟨ho, hk2⟩ := hPC.2.1 c1 o heqP
            have hPC1 := hPC.1
            rw [heqP] at hPC1
            simp only [LoopRes.ctx] at hPC1
            rw [hrc_rows, hrc_f] at hPC1
            refine ⟨?_, ho⟩
            show countNulls c1.rows = _
            rw [hrc_f] at hk2
            omega
          · rename_i c1 heqP
            obtain ⟨hf1, hlt1, hsub⟩ := hPC.2.2 c1 heqP
            have hPC1 := hPC.1
            rw [heqP] at hPC1
            simp only [LoopRes.ctx] at hPC1
            rw [hrc_rows, hrc_f] at hPC1
            rw [hrc_f] at hf1 hlt1
            rw [tokTruthy_pageTok i]
            simp only [Bool.not_true, Bool.false_eq_true, if_false]
            have hnot : (pageTok (i + 1)).getD "" ∉ seen := by
              intro hmem
              have h1 := hseen _ hmem
              rw [pageTok_getD_len] at h1
              omega
            rw [if_neg hnot]
            have hrec := ih (i + 1) ((pageTok (i + 1)).getD "" :: seen) c1
              (by omega)
              (fun x hx h1 => by
                rcases hsub _ h1 with h2 | h2
                · exact hinB x hx h2
                · exact hdisj h2 (List.mem_map_of_mem _ hx))
              hndB (by omega)
              (fun s hs => by
                rcases List.mem_cons.mp hs with h1 | h1
                · rw [h1, pageTok_getD_len]
                · have := hseen s h1
                  omega)
            refine ⟨?_, hrec.2⟩
            rw [hrec.1, hPC1, hf1]
            omega
        · have hval : pagedThreads pages c.ncalls (pageTok i) =
              .ok ⟨pages.get ⟨i, hi⟩, none⟩ := by
            unfold pagedThreads
            rw [dif_pos (by rw [tokIdx_pageTok]; exact hi)]
            simp [tokIdx_pageTok, hi2]
          rw [hval] at heq
          cases heq
          dsimp only
          have hB0 : pages.drop (i + 1) = [] :=
            List.drop_eq_nil_of_le (by omega)
          have hB0len : (pages.drop (i + 1)).flatten.length = 0 := by
            rw [hB0]
            rfl
          have hPC := processItems_paged_count cfg R k rfuel
            none hapiR htop htot hrf (pages.get ⟨i, hi⟩)
            (recCall c (.threads (pageTok i)))
            (fun x hx => hinA x hx) hndA (by rw [hrc_f]; exact hflt)
          split
          · rename_i c1 o heqP
            obtain ⟨ho, hk2⟩ := hPC.2.1 c1 o heqP
            have hPC1 := hPC.1
            rw [heqP] at hPC1
            simp only [LoopRes.ctx] at hPC1
            rw [hrc_rows, hrc_f] at hPC1
            refine ⟨?_, ho⟩
            show countNulls c1.rows = _
            rw [hrc_f] at hk2
            omega
          · rename_i c1 heqP
            obtain ⟨hf1, hlt1, hsub⟩ := hPC.2.2 c1 heqP
            have hPC1 := hPC.1
            rw [heqP] at hPC1
            simp only [LoopRes.ctx] at hPC1
            rw [hrc_rows, hrc_f] at hPC1
            rw [hrc_f] at hf1 hlt1
            rw [show tokTruthy none = false from rfl]
            simp only [Bool.not_false, if_true]
            refine ⟨?_, by simp⟩
            show countNulls c1.rows = _
            omega
      · have hval : pagedThreads pages c.ncalls (pageTok i) =
            .ok ⟨[], none⟩ := by
          unfold pagedThreads
          rw [dif_neg (by rw [tokIdx_pageTok]; exact hi)]
        rw [hval] at heq
        cases heq
        dsimp only
        have hD0 : pages.drop i = [] :=
          List.drop_eq_nil_of_le (by omega)
        have hD0len : (pages.drop i).flatten.length = 0 := by
          rw [hD0]
          rfl
        split
        · rename_i c1 o heqP
          simp only [processItems] at heqP
          exact LoopRes.noConfusion heqP
        · rename_i c1 heqP
          simp only [processItems] at heqP
          cases heqP
          rw [show tokTruthy none = false from rfl]
          simp only [Bool.not_false, if_true]
          refine ⟨?_, by simp⟩
          show countNulls (recCall c (.threads (pageTok i))).rows = _
          rw [hrc_rows]
          omega

/-- C6: for every run with `max_top_level = k` (a positive integer) and no
other early stop (no `max_total`, an error-free upstream serving the
thread list across arbitrarily many pages with distinct page tokens,
arbitrary per-thread paged replies, and pairwise-distinct thread ids),
the number of output rows with a null `parent_id` is exactly
`min k (number of top-level comments available upstream)`, and the run
returns normally. -/
theorem max_top_level_respected (pages : List (List ThreadItem))
    (R : String → List (List Comment)) (k rf af : Nat) (nr : Bool)
    (hk : 0 < k) (hrf : ∀ pid, (R pid).length < rf)
    (hnd : (pages.flatten.map (fun x => x.top.id)).Nodup) :
    countNulls (fetch_all_comments (pagedApi pages R) "v" "time" (some k)
      nr none false false 500 none af rf (pages.length + 1)).rows =
      min k pages.flatten.length ∧
    (fetch_all_comments (pagedApi pages R) "v" "time" (some k) nr none
      false false 500 none af rf (pages.length + 1)).outcome = .returned := by
  have hrun : fetch_all_comments (pagedApi pages R) "v" "time" (some k)
      nr none false false 500 none af rf (pages.length + 1) =
      fetchRun ⟨pagedApi pages R, "v", "time", limitHit (some k),
        limitHit none, nr, false, 500⟩ wStFresh af rf
        (pages.length + 1) := rfl
  rw [hrun]
  have hres : resumePhase ⟨pagedApi pages R, "v", "time",
      limitHit (some k), limitHit none, nr, false, 500⟩ af
      (initCtx wStFresh) = .cont (initCtx wStFresh) := rfl
  unfold fetchRun
  rw [hres]
  dsimp only
  rw [show (initCtx wStFresh).state.page_token = pageTok 0 from rfl]
  have hML := mainLoop_paged_count ⟨pagedApi pages R, "v", "time",
      limitHit (some k), limitHit none, nr, false, 500⟩ pages R k rf
      rfl rfl rfl rfl hrf (pages.length + 1) 0 [] (initCtx wStFresh)
      (by omega)
      (fun x hx => List.not_mem_nil x.top.id)
      (by rw [List.drop_zero]; exact hnd)
      hk
      (fun s hs => absurd hs (List.not_mem_nil s))
  refine ⟨?_, hML.2⟩
  rw [hML.1]
  have h0 : countNulls (initCtx wStFresh).rows = 0 := rfl
  have hf0 : (initCtx wStFresh).fetched_threads = 0 := rfl
  rw [h0, hf0, List.drop_zero, Nat.sub_zero, Nat.zero_add]

theorem max_top_level_respected_w :
    countNulls (fetch_all_comments
      (pagedApi [[wItemBig], [wItem "B", wItem "C"]] wR) "v" "time"
      (some 2) false none false false 500 none 0 2 (2 + 1)).rows =
      min 2 3 :=
  (max_top_level_respected [[wItemBig], [wItem "B", wItem "C"]] wR 2 2 0
    false (by decide) (fun pid => show (1:Nat) < 2 by decide) (by decide)).1
